import Mathlib

/-!
# CPU-Monitor-Sketch: the control loop of `main.c`

A shallow embedding of `src/main.c` (an AVR program that receives a CPU load
over the UART and shows it with a stepper motor) and theorems about it.

Modelling decisions, all read off the source:

* `int` is the 16-bit two's complement `int` of avr-gcc: arithmetic results are
  reduced with `wrap16`.
* `char buffer[4]` is the record `Buffer`; a store outside indices `0..3` stops the
  run with `Fault.bufferOverrun`, because the memory next to the array is not part
  of the program text.  In the same way `itoa` writing more than the five bytes of
  `char output[5]` stops the run with `Fault.outputOverrun`.
* Everything observable is recorded, in program order, in a list of `Event`s:
  bytes written to the serial link, stores into `buffer`, `SET_HIGH`/`SET_LOW` on
  `STEPPER_PORT`, and `_delay_ms`.
* The status masks of `uart.h` (`UART_NO_DATA`, ...) are not in the source tree;
  they are the parameter `UartFlags`.
-/

namespace CpuMonitor

/-! ## Constants of `main.c` -/

/-- Pin `ENABLE_PIN` of `STEPPER_PORT`. -/
def ENABLE_PIN : Nat := 2
/-- Pin `HALFFULL_PIN` of `STEPPER_PORT`. -/
def HALFFULL_PIN : Nat := 3
/-- Pin `CLOCK_PIN` of `STEPPER_PORT`. -/
def CLOCK_PIN : Nat := 4
/-- Pin `CWCWW_PIN` of `STEPPER_PORT` (direction). -/
def CWCWW_PIN : Nat := 5
/-- Constant `STEP_FACTOR`. -/
def STEP_FACTOR : Int := 4
/-- Constant `READ_TO_CHAR`, the terminator `'!'`. -/
def READ_TO_CHAR : Nat := 33
/-- Constant `RESET_STEPPER_CHAR`, the reset character `'#'`. -/
def RESET_STEPPER_CHAR : Nat := 35
/-- Number of elements of `char buffer[4]`. -/
def bufferSize : Nat := 4
/-- Number of elements of `char output[5]`. -/
def outputSize : Nat := 5

/-- The status masks of `uart.h`, which `main.c` tests against the word returned
by `uart_getc()`.  The header is not part of the source tree, so the masks are a
parameter of the model. -/
structure UartFlags where
  UART_NO_DATA : Nat
  UART_FRAME_ERROR : Nat
  UART_OVERRUN_ERROR : Nat
  UART_BUFFER_OVERFLOW : Nat
deriving DecidableEq, Repr

/-- The status masks lie in the high byte of the word returned by `uart_getc()`:
the low byte is the received data byte. -/
def UartFlags.HighByte (fl : UartFlags) : Prop :=
  fl.UART_NO_DATA % 256 = 0 ∧ fl.UART_FRAME_ERROR % 256 = 0 ∧
  fl.UART_OVERRUN_ERROR % 256 = 0 ∧ fl.UART_BUFFER_OVERFLOW % 256 = 0

instance (fl : UartFlags) : Decidable fl.HighByte := by
  unfold UartFlags.HighByte; infer_instance

/-- One concrete choice of status masks (the values of the widely used AVR UART
library header), used to evaluate the model on concrete inputs. -/
def sampleFlags : UartFlags :=
  { UART_NO_DATA := 0x0100, UART_FRAME_ERROR := 0x0800,
    UART_OVERRUN_ERROR := 0x0400, UART_BUFFER_OVERFLOW := 0x0200 }

/-! ## Observable events -/

/-- What the program does to the outside world and to `buffer`, in program order. -/
inductive Event where
  /-- One byte written to the serial link (`uart_putc`, `uart_puts`, `uart_puts_P`). -/
  | tx (c : Char)
  /-- A store `buffer[index] = value`. -/
  | store (index : Int) (value : Nat)
  /-- Macro `SET_HIGH(pin)` on `STEPPER_PORT`. -/
  | high (pin : Nat)
  /-- Macro `SET_LOW(pin)` on `STEPPER_PORT`. -/
  | low (pin : Nat)
  /-- Call `_delay_ms(ms)`. -/
  | delay (ms : Nat)
deriving DecidableEq, Repr

/-- A run stops at undefined behaviour of the C program. -/
inductive Fault where
  /-- A store `buffer[index] = ...` with `index` outside `0..3`. -/
  | bufferOverrun (index : Int)
  /-- The call `itoa(steps, output, 10)` writes `bytes` bytes, more than `output` holds. -/
  | outputOverrun (bytes : Nat)
deriving DecidableEq, Repr

/-! ## Machine integers -/

/-- Reduction of an integer to the 16-bit two's complement `int` of the target. -/
def wrap16 (x : Int) : Int := (x + 32768) % 65536 - 32768

/-- Function `abs` of `<stdlib.h>` on a 16-bit `int`. -/
def abs16 (x : Int) : Int := wrap16 (if x < 0 then -x else x)

/-! ## The stepper port -/

/-- Macro `SET_HIGH(pin)`: `STEPPER_PORT |= 1 << pin` on the 8-bit port register. -/
def SET_HIGH (pin : Nat) (port : Nat) : Nat := (port ||| (1 <<< pin)) % 256

/-- Macro `SET_LOW(pin)`: `STEPPER_PORT &= ~(1 << pin)` on the 8-bit port register
(`~(1 << pin)` is the complement in a 16-bit `int`). -/
def SET_LOW (pin : Nat) (port : Nat) : Nat := (port &&& (65535 ^^^ (1 <<< pin))) % 256

/-- The events of one iteration of the loop of `doSteps`. -/
def pulseCycle : List Event :=
  [Event.high ENABLE_PIN, Event.low CLOCK_PIN, Event.delay 1,
   Event.high CLOCK_PIN, Event.low ENABLE_PIN, Event.delay 1]

/-- The port register after one iteration of the loop of `doSteps`. -/
def pulsePort (port : Nat) : Nat :=
  SET_LOW ENABLE_PIN (SET_HIGH CLOCK_PIN (SET_LOW CLOCK_PIN (SET_HIGH ENABLE_PIN port)))

/-- The loop `for (int i = 0; i < stepNumber; i++)` of `doSteps`, by the number of
iterations left: the port register afterwards and the events. -/
def doStepsLoop : Nat → Nat → Nat × List Event
  | 0, port => (port, [])
  | k + 1, port =>
    let r := doStepsLoop k (pulsePort port)
    (r.1, pulseCycle ++ r.2)

/-- Function `doSteps`: `stepNumber = abs(steps) * STEP_FACTOR` in 16-bit arithmetic,
then `stepNumber` iterations (none when `stepNumber <= 0`). -/
def doSteps (steps : Int) (port : Nat) : Nat × List Event :=
  let stepNumber := wrap16 (abs16 steps * STEP_FACTOR)
  doStepsLoop stepNumber.toNat port

/-- Function `setClockWise`. -/
def setClockWise (port : Nat) : Nat × List Event :=
  (SET_HIGH CWCWW_PIN port, [Event.high CWCWW_PIN, Event.delay 1])

/-- Function `setCounterClockWise`. -/
def setCounterClockWise (port : Nat) : Nat × List Event :=
  (SET_LOW CWCWW_PIN port, [Event.low CWCWW_PIN, Event.delay 1])

/-! ## Library functions `atoi`, `itoa` and the UART writers -/

/-- Function `isspace` of the C library on a byte. -/
def isSpace (c : Nat) : Bool := c == 32 || (9 ≤ c && c ≤ 13)

/-- Function `isdigit` of the C library on a byte. -/
def isDigit (c : Nat) : Bool := 48 ≤ c && c ≤ 57

/-- The digit loop of `atoi`: accumulate decimal digits until the first other byte. -/
def atoiDigits : Int → List Nat → Int
  | acc, [] => acc
  | acc, c :: cs => if isDigit c then atoiDigits (acc * 10 + ((c : Int) - 48)) cs else acc

/-- The white space that `atoi` skips in front of the number. -/
def skipSpace : List Nat → List Nat
  | [] => []
  | c :: cs => if isSpace c then skipSpace cs else c :: cs

/-- Function `atoi` of `<stdlib.h>` on the bytes of a C string (without the NUL):
white space, an optional sign, decimal digits; the result is a 16-bit `int`. -/
def atoi (s : List Nat) : Int :=
  match skipSpace s with
  | [] => 0
  | c :: cs =>
    if c = 45 then wrap16 (-(atoiDigits 0 cs))
    else if c = 43 then wrap16 (atoiDigits 0 cs)
    else wrap16 (atoiDigits 0 (c :: cs))

/-- Function `itoa(n, output, 10)` of `<stdlib.h>`: the characters written before the
NUL, a minus sign for a negative number and then the decimal digits. -/
def itoa (n : Int) : List Char :=
  if n < 0 then '-' :: Nat.toDigits 10 n.natAbs else Nat.toDigits 10 n.natAbs

/-- Functions `uart_puts` / `uart_puts_P`: one `tx` event for each character. -/
def uartPuts (s : List Char) : List Event := s.map Event.tx

/-- The three warnings of `main`, in the order of the source. -/
def warnings (fl : UartFlags) (input : Nat) : List Event :=
  (if input &&& fl.UART_FRAME_ERROR ≠ 0 then uartPuts "UART Frame Error: ".toList else []) ++
  (if input &&& fl.UART_OVERRUN_ERROR ≠ 0 then uartPuts "UART Overrun Error: ".toList else []) ++
  (if input &&& fl.UART_BUFFER_OVERFLOW ≠ 0 then
    uartPuts "Buffer Overflow Error: ".toList else [])

/-! ## Program state -/

/-- The array `char buffer[4]`. -/
structure Buffer where
  c0 : Nat
  c1 : Nat
  c2 : Nat
  c3 : Nat
deriving DecidableEq, Repr

/-- The store `buffer[i] = v` for an index inside the array. -/
def Buffer.set (b : Buffer) (i : Nat) (v : Nat) : Buffer :=
  match i with
  | 0 => { b with c0 := v }
  | 1 => { b with c1 := v }
  | 2 => { b with c2 := v }
  | 3 => { b with c3 := v }
  | _ => b

/-- The elements of the array in index order. -/
def Buffer.toList (b : Buffer) : List Nat := [b.c0, b.c1, b.c2, b.c3]

/-- The array after `memset(&buffer[0], 0, sizeof(buffer))`. -/
def Buffer.zero : Buffer := ⟨0, 0, 0, 0⟩

/-- The C string that starts at `buffer[0]`: the bytes before the first NUL. -/
def Buffer.cString (b : Buffer) : List Nat := b.toList.takeWhile (fun c => c != 0)

/-- The events of `memset(&buffer[0], 0, sizeof(buffer))`. -/
def memsetEvents : List Event :=
  [Event.store 0 0, Event.store 1 0, Event.store 2 0, Event.store 3 0]

/-- The variables of `main` that live across loop iterations, and the port register. -/
structure State where
  buffer : Buffer
  bufferIndex : Int
  cpuUsage : Int
  oldCpuUsage : Int
  steps : Int
  port : Nat
deriving DecidableEq, Repr

/-- The result of running the program for a while: the events in program order, the
variables at the end (at the fault, when there is one), and the fault that stopped
the run, if any. -/
structure Outcome where
  events : List Event
  state : State
  fault : Option Fault
deriving DecidableEq, Repr

/-- The start-up code of `main` on the port register: `SET_HIGH(HALFFULL_PIN)` and
`SET_HIGH(CLOCK_PIN)`.  (`SET_OUTPUT` changes only the direction register.) -/
def startup (portd : Nat) : Nat := SET_HIGH CLOCK_PIN (SET_HIGH HALFFULL_PIN portd)

/-- The state when the loop of `main` is entered.  `buffer` is an uninitialised local,
its content `junk` is arbitrary; `portd` is the port register before the start-up code. -/
def init (junk : Buffer) (portd : Nat) : State :=
  { buffer := junk, bufferIndex := 0, cpuUsage := 0, oldCpuUsage := 0, steps := 0,
    port := startup portd }

/-- The index `i` is inside `char buffer[4]`. -/
def inBounds (i : Int) : Bool := 0 ≤ i && i < 4

/-- The block `if (steps > 0) ... else if (steps < 0) ...`, lines 118-126 of `main.c`:
the port register afterwards and the events. -/
def moveMotor (steps : Int) (port : Nat) : Nat × List Event :=
  if 0 < steps then
    let d := setClockWise port
    let m := doSteps steps d.1
    (m.1, d.2 ++ m.2)
  else if steps < 0 then
    let d := setCounterClockWise port
    let m := doSteps steps d.1
    (m.1, d.2 ++ m.2)
  else (port, [])

/-- The body of `if (input == READ_TO_CHAR)`, lines 98-132 of `main.c`; `evs` are the
events of the iteration so far. -/
def completeFrame (s : State) (evs : List Event) : Outcome :=
  -- buffer[--bufferIndex] = 0;
  let j := wrap16 (s.bufferIndex - 1)
  let s1 := { s with bufferIndex := j }
  let evs1 := evs ++ [Event.store j 0]
  if !inBounds j then ⟨evs1, s1, some (Fault.bufferOverrun j)⟩ else
  let s2 := { s1 with buffer := s1.buffer.set j.toNat 0 }
  -- oldCpuUsage = cpuUsage; cpuUsage = atoi(buffer); steps = cpuUsage - oldCpuUsage;
  let cpuUsage := atoi s2.buffer.cString
  let steps := wrap16 (cpuUsage - s2.cpuUsage)
  let s3 := { s2 with oldCpuUsage := s2.cpuUsage, cpuUsage := cpuUsage, steps := steps }
  -- itoa(steps, output, 10);
  let reply := itoa steps
  if outputSize < reply.length + 1 then
    ⟨evs1, s3, some (Fault.outputOverrun (reply.length + 1))⟩ else
  -- uart_puts(output); uart_putc('!');
  let evs2 := evs1 ++ uartPuts reply ++ [Event.tx '!']
  -- if (steps > 0) ... else if (steps < 0) ...
  let motor := moveMotor steps s3.port
  -- memset(&buffer[0], 0, sizeof(buffer)); bufferIndex = 0;
  ⟨evs2 ++ motor.2 ++ memsetEvents,
   { s3 with port := motor.1, buffer := Buffer.zero, bufferIndex := 0 }, none⟩

/-- One iteration of `while(1)` in `main`, for the word `input` returned by
`uart_getc()`. -/
def step (fl : UartFlags) (s : State) (input : Nat) : Outcome :=
  if input &&& fl.UART_NO_DATA ≠ 0 then ⟨[], s, none⟩
  else if input = RESET_STEPPER_CHAR then
    let d := setCounterClockWise s.port
    let m := doSteps s.cpuUsage d.1
    ⟨warnings fl input ++ d.2 ++ m.2, { s with port := m.1, cpuUsage := 0 }, none⟩
  else
    -- buffer[bufferIndex++] = input;
    let i := s.bufferIndex
    let s1 := { s with bufferIndex := wrap16 (i + 1) }
    let evs := warnings fl input ++ [Event.store i (input % 256)]
    if !inBounds i then ⟨evs, s1, some (Fault.bufferOverrun i)⟩ else
    let s2 := { s1 with buffer := s1.buffer.set i.toNat (input % 256) }
    if input = READ_TO_CHAR then completeFrame s2 evs else ⟨evs, s2, none⟩

/-- The loop of `main` on a stream of words returned by `uart_getc()`; it stops at
the first fault. -/
def run (fl : UartFlags) (s : State) : List Nat → Outcome
  | [] => ⟨[], s, none⟩
  | w :: ws =>
    let o := step fl s w
    match o.fault with
    | some _ => o
    | none =>
      let r := run fl o.state ws
      ⟨o.events ++ r.events, r.state, r.fault⟩

/-- The states of the main loop: those the loop reaches from its initial state
without a fault. -/
inductive Reachable (fl : UartFlags) : State → Prop where
  | init (junk : Buffer) (portd : Nat) : Reachable fl (init junk portd)
  | step (s : State) (w : Nat) :
      Reachable fl s → (step fl s w).fault = none → Reachable fl (step fl s w).state

/-! ## Observations on event lists -/

/-- The bytes written to the serial link. -/
def serialOut : List Event → List Char
  | [] => []
  | Event.tx c :: es => c :: serialOut es
  | _ :: es => serialOut es

/-- The motor signal trace: the port operations and delays. -/
def motorTrace : List Event → List Event
  | [] => []
  | Event.high p :: es => Event.high p :: motorTrace es
  | Event.low p :: es => Event.low p :: motorTrace es
  | Event.delay d :: es => Event.delay d :: motorTrace es
  | _ :: es => motorTrace es

/-- The indices of the stores into `buffer`. -/
def storeIndices : List Event → List Int
  | [] => []
  | Event.store i _ :: es => i :: storeIndices es
  | _ :: es => storeIndices es

/-- The number of pulse cycles: the motor driver steps on each rising clock edge, and
every loop iteration of `doSteps` has exactly one `SET_HIGH(CLOCK_PIN)`. -/
def pulseCount : List Event → Nat
  | [] => 0
  | Event.high p :: es => (if p = CLOCK_PIN then 1 else 0) + pulseCount es
  | _ :: es => pulseCount es

/-- The net position: pulse cycles issued while the direction signal is high minus
those issued while it is low; `dir` is the direction signal before the events. -/
def netPosition : Bool → List Event → Int
  | _, [] => 0
  | dir, Event.high p :: es =>
    if p = CWCWW_PIN then netPosition true es
    else if p = CLOCK_PIN then (if dir then 1 else -1) + netPosition dir es
    else netPosition dir es
  | dir, Event.low p :: es =>
    if p = CWCWW_PIN then netPosition false es else netPosition dir es
  | dir, _ :: es => netPosition dir es

/-- The direction bit of the port register. -/
def dirBit (port : Nat) : Bool := port.testBit CWCWW_PIN

/-! ## Words of the serial protocol -/

/-- The ASCII codes of a string of decimal digits. -/
def digitWords (ds : List Nat) : List Nat := ds.map (fun d => d + 48)

/-- The decimal value of a string of digits, most significant first. -/
def decimalValue (ds : List Nat) : Int := ds.foldl (fun acc d => acc * 10 + (d : Int)) 0

/-- A string of 1 to 3 decimal digits. -/
def IsDigits (ds : List Nat) : Prop := 1 ≤ ds.length ∧ ds.length ≤ 3 ∧ ∀ d ∈ ds, d < 10

instance (ds : List Nat) : Decidable (IsDigits ds) := by
  unfold IsDigits; infer_instance

/-- The words of a digit frame: the digits and then the terminator. -/
def frameWords (ds : List Nat) : List Nat := digitWords ds ++ [READ_TO_CHAR]

/-- The words received for the characters of a text, none with a status flag. -/
def asciiWords (text : String) : List Nat := text.toList.map Char.toNat

/-- The stores of the digits of a frame, the first one at index `i`. -/
def frameStores : Nat → List Nat → List Event
  | _, [] => []
  | i, d :: ds => Event.store (i : Int) (d + 48) :: frameStores (i + 1) ds

/-- The buffer after the digits of a frame have been stored from index `i` on. -/
def writeDigits : Buffer → Nat → List Nat → Buffer
  | b, _, [] => b
  | b, i, d :: ds => writeDigits (b.set i (d + 48)) (i + 1) ds

/-- What a digit frame does, as one expression: the stores of the digits, the
terminator and the NUL, the reply, the motor events and the `memset`. -/
def frameOutcome (s : State) (ds : List Nat) : Outcome :=
  let delta := wrap16 (decimalValue ds - s.cpuUsage)
  let motor := moveMotor delta s.port
  ⟨frameStores 0 ds ++ [Event.store ds.length 33, Event.store ds.length 0] ++
      uartPuts (itoa delta) ++ [Event.tx '!'] ++ motor.2 ++ memsetEvents,
   { buffer := Buffer.zero, bufferIndex := 0, cpuUsage := decimalValue ds,
     oldCpuUsage := s.cpuUsage, steps := delta, port := motor.1 }, none⟩

/-- One element of an input stream of digit frames and reset characters. -/
inductive Item where
  /-- A digit frame: the digits, followed on the wire by the terminator. -/
  | frame (ds : List Nat)
  /-- The reset character. -/
  | reset
deriving DecidableEq, Repr

/-- The words of one element of the stream. -/
def Item.words : Item → List Nat
  | Item.frame ds => frameWords ds
  | Item.reset => [RESET_STEPPER_CHAR]

/-- A digit frame has 1 to 3 decimal digits. -/
def Item.Valid : Item → Prop
  | Item.frame ds => IsDigits ds
  | Item.reset => True

instance (it : Item) : Decidable it.Valid := by
  cases it <;> unfold Item.Valid <;> infer_instance

/-- The words of a stream of digit frames and reset characters. -/
def streamWords : List Item → List Nat
  | [] => []
  | it :: its => it.words ++ streamWords its

/-- The direction signal after a list of events, `dir` being the signal before. -/
def finalDir : Bool → List Event → Bool
  | dir, [] => dir
  | dir, Event.high p :: es => if p = CWCWW_PIN then finalDir true es else finalDir dir es
  | dir, Event.low p :: es => if p = CWCWW_PIN then finalDir false es else finalDir dir es
  | dir, _ :: es => finalDir dir es

/-- A received word that is accumulated and nothing else: it carries no `UART_NO_DATA`
flag and is neither the reset character nor the terminator. -/
def Accumulates (fl : UartFlags) (w : Nat) : Prop :=
  w &&& fl.UART_NO_DATA = 0 ∧ w ≠ RESET_STEPPER_CHAR ∧ w ≠ READ_TO_CHAR

instance (fl : UartFlags) (w : Nat) : Decidable (Accumulates fl w) := by
  unfold Accumulates; infer_instance

/-- The warning texts for the frame-error, overrun-error and buffer-overflow flags that
are set, in that order. -/
def warningText (frameError overrunError bufferOverflow : Bool) : List Char :=
  (if frameError then "UART Frame Error: ".toList else []) ++
  (if overrunError then "UART Overrun Error: ".toList else []) ++
  (if bufferOverflow then "Buffer Overflow Error: ".toList else [])

/-- A reset character, or a digit frame whose value is a percentage, `0..100`. -/
def Item.Percent : Item → Prop
  | Item.frame ds => IsDigits ds ∧ decimalValue ds ≤ 100
  | Item.reset => True

/-- The motor events expected for a step delta: nothing for 0, otherwise the direction
(high for a positive delta, low for a negative one), the settle delay, and then
`4 * |delta|` pulse cycles. -/
def expectedMotion (delta : Int) : List Event :=
  if 0 < delta then
    [Event.high CWCWW_PIN, Event.delay 1] ++ (List.replicate (4 * delta.natAbs) pulseCycle).flatten
  else if delta < 0 then
    [Event.low CWCWW_PIN, Event.delay 1] ++ (List.replicate (4 * delta.natAbs) pulseCycle).flatten
  else []

/-- The half/full-step bit and the clock bit are high. -/
def LinesHigh (port : Nat) : Prop :=
  port.testBit HALFFULL_PIN = true ∧ port.testBit CLOCK_PIN = true

/-- The values of the `int` variables stay where 16-bit arithmetic is exact: Reading and
PreviousReading in `-99..999`, the step delta in `-1098..1098`. -/
def SmallInts (s : State) : Prop :=
  (-99 ≤ s.cpuUsage ∧ s.cpuUsage ≤ 999) ∧ (-99 ≤ s.oldCpuUsage ∧ s.oldCpuUsage ≤ 999) ∧
  (-1098 ≤ s.steps ∧ s.steps ≤ 1098)

/-- The three branches of the body of `while(1)`, lines 78-133 of `main.c`. -/
inductive Branch where
  /-- Branch `if (input & UART_NO_DATA)`. -/
  | noData
  /-- Branch `else if (input == RESET_STEPPER_CHAR)`. -/
  | reset
  /-- Branch `else`: the word is stored in `buffer`. -/
  | accumulate
deriving DecidableEq, Repr

/-- Which branch of the loop body a received word takes: the conditions of lines 78 and 80
of `main.c`, in that order. -/
def branch (fl : UartFlags) (input : Nat) : Branch :=
  if input &&& fl.UART_NO_DATA ≠ 0 then Branch.noData
  else if input = RESET_STEPPER_CHAR then Branch.reset
  else Branch.accumulate

/-! ## Basic facts -/

theorem wrap16_id {x : Int} (h1 : -32768 ≤ x) (h2 : x ≤ 32767) : wrap16 x = x := by
  unfold wrap16; omega

theorem and_highByte {m c : Nat} (hm : m % 256 = 0) (hc : c < 256) : c &&& m = 0 := by
  apply Nat.eq_of_testBit_eq
  intro i
  rw [Nat.testBit_and, Nat.zero_testBit]
  by_cases hi : i < 8
  · have h := Nat.testBit_mod_two_pow m 8 i
    have h8 : (2:Nat)^8 = 256 := by norm_num
    rw [h8, hm, Nat.zero_testBit] at h
    simp [hi] at h
    simp [h]
  · have : c < 2 ^ i := lt_of_lt_of_le hc (by
      have : (2:Nat)^8 ≤ 2^i := Nat.pow_le_pow_right (by norm_num) (by omega)
      simpa using this)
    simp [Nat.testBit_lt_two_pow this]

theorem warnings_byte {fl : UartFlags} (hfl : fl.HighByte) {c : Nat} (hc : c < 256) :
    warnings fl c = [] := by
  obtain ⟨_, h2, h3, h4⟩ := hfl
  simp [warnings, and_highByte h2 hc, and_highByte h3 hc, and_highByte h4 hc]

theorem noData_byte {fl : UartFlags} (hfl : fl.HighByte) {c : Nat} (hc : c < 256) :
    c &&& fl.UART_NO_DATA = 0 := and_highByte hfl.1 hc

/-- A word that is neither flagged "no data" nor the reset character nor the terminator
is stored and nothing else happens. -/
theorem step_store (fl : UartFlags) (s : State) (w : Nat)
    (hnd : w &&& fl.UART_NO_DATA = 0) (h35 : w ≠ 35) (h33 : w ≠ 33)
    (hi : inBounds s.bufferIndex = true) :
    step fl s w =
      ⟨warnings fl w ++ [Event.store s.bufferIndex (w % 256)],
       { s with bufferIndex := wrap16 (s.bufferIndex + 1),
                buffer := s.buffer.set s.bufferIndex.toNat (w % 256) }, none⟩ := by
  simp [step, hnd, RESET_STEPPER_CHAR, READ_TO_CHAR, h35, h33, hi]

theorem step_terminator (fl : UartFlags) (hfl : fl.HighByte) (s : State)
    (hi : inBounds s.bufferIndex = true) :
    step fl s 33 =
      completeFrame
        { s with bufferIndex := wrap16 (s.bufferIndex + 1),
                 buffer := s.buffer.set s.bufferIndex.toNat 33 }
        [Event.store s.bufferIndex 33] := by
  have hnd : 33 &&& fl.UART_NO_DATA = 0 := noData_byte hfl (by norm_num)
  have hw : warnings fl 33 = [] := warnings_byte hfl (by norm_num)
  simp [step, hnd, RESET_STEPPER_CHAR, READ_TO_CHAR, hi, hw]


theorem isDigit_digit {d : Nat} (h : d < 10) : isDigit (d + 48) = true := by
  simp [isDigit]; omega

theorem isSpace_digit (d : Nat) : isSpace (d + 48) = false := by
  simp [isSpace]

theorem run_append (fl : UartFlags) (ws1 ws2 : List Nat) (s : State)
    (h : (run fl s ws1).fault = none) :
    run fl s (ws1 ++ ws2) =
      ⟨(run fl s ws1).events ++ (run fl (run fl s ws1).state ws2).events,
       (run fl (run fl s ws1).state ws2).state,
       (run fl (run fl s ws1).state ws2).fault⟩ := by
  induction ws1 generalizing s with
  | nil => simp [run]
  | cons w ws ih =>
    simp only [run, List.cons_append] at h ⊢
    cases hf : (step fl s w).fault with
    | some f => simp [hf] at h
    | none =>
      simp only [hf, List.append_eq] at h ⊢
      rw [ih _ h]
      simp

theorem run_digits (fl : UartFlags) (hfl : fl.HighByte) (ds : List Nat)
    (hd : ∀ d ∈ ds, d < 10) (s : State) (i : Nat) (hidx : s.bufferIndex = i)
    (hlen : i + ds.length ≤ 4) :
    run fl s (digitWords ds) =
      ⟨frameStores i ds,
       { s with bufferIndex := ((i + ds.length : Nat) : Int),
                buffer := writeDigits s.buffer i ds }, none⟩ := by
  induction ds generalizing s i with
  | nil =>
    obtain ⟨buf, idx, cpu, old, st, port⟩ := s
    simp only at hidx
    simp [digitWords, run, frameStores, writeDigits, hidx]
  | cons d ds ih =>
    obtain ⟨buf, idx, cpu, old, st, port⟩ := s
    simp only at hidx
    subst hidx
    have hd0 : d < 10 := hd d (by simp)
    have hlen2 : i + 1 + ds.length ≤ 4 := by simp at hlen; omega
    have hb : inBounds (i : Int) = true := by simp [inBounds]; omega
    have hw : wrap16 ((i : Int) + 1) = ((i + 1 : Nat) : Int) := by
      rw [wrap16_id] <;> push_cast <;> omega
    simp only [digitWords, List.map, run] at ih ⊢
    rw [step_store fl _ _ (noData_byte hfl (by omega)) (by omega) (by omega) hb]
    rw [warnings_byte hfl (by omega)]
    simp only [hw, Int.toNat_ofNat, List.nil_append]
    rw [ih (fun x hx => hd x (by simp [hx])) _ (i + 1) rfl hlen2]
    have hm : (d + 48) % 256 = d + 48 := by omega
    simp [frameStores, writeDigits, hm, Nat.add_assoc, Nat.add_comm 1]

theorem completeFrame_ok (s : State) (evs : List Event) (n : Nat) (hn : n < 4)
    (hidx : s.bufferIndex = ((n + 1 : Nat) : Int)) (v : Int)
    (hat : atoi (s.buffer.set n 0).cString = v)
    (hfit : (itoa (wrap16 (v - s.cpuUsage))).length ≤ 4) :
    completeFrame s evs =
      ⟨evs ++ [Event.store n 0] ++ uartPuts (itoa (wrap16 (v - s.cpuUsage))) ++ [Event.tx '!'] ++
          (moveMotor (wrap16 (v - s.cpuUsage)) s.port).2 ++ memsetEvents,
       { buffer := Buffer.zero, bufferIndex := 0, cpuUsage := v, oldCpuUsage := s.cpuUsage,
         steps := wrap16 (v - s.cpuUsage), port := (moveMotor (wrap16 (v - s.cpuUsage)) s.port).1 },
       none⟩ := by
  obtain ⟨buf, idx, cpu, old, st, port⟩ := s
  simp only at hidx hat hfit
  subst hidx
  have hw : wrap16 (((n + 1 : Nat) : Int) - 1) = (n : Int) := by
    rw [wrap16_id] <;> push_cast <;> omega
  have hb : inBounds (n : Int) = true := by simp [inBounds]; omega
  have hfit2 : ¬ (outputSize < (itoa (wrap16 (v - cpu))).length + 1) := by
    simp [outputSize]; omega
  simp only [completeFrame, hw, hb, Int.toNat_ofNat, hat, hfit2]
  simp


theorem atoi_frame_buffer (buf : Buffer) (ds : List Nat) (hds : IsDigits ds) :
    atoi (((writeDigits buf 0 ds).set ds.length 33).set ds.length 0).cString =
      decimalValue ds := by
  obtain ⟨h1, h3, hd⟩ := hds
  match ds, h1, h3, hd with
  | [a], _, _, hd =>
    have ha : a < 10 := hd a (by simp)
    have h45 : a + 48 ≠ 45 := by omega
    have h43 : a + 48 ≠ 43 := by omega
    simp [writeDigits, Buffer.set, Buffer.cString, Buffer.toList, List.takeWhile, atoi,
      skipSpace, isSpace_digit, atoiDigits, isDigit_digit ha, decimalValue, h45, h43]
    rw [wrap16_id] <;> omega
  | [a, b], _, _, hd =>
    have ha : a < 10 := hd a (by simp)
    have hb : b < 10 := hd b (by simp)
    have h45 : a + 48 ≠ 45 := by omega
    have h43 : a + 48 ≠ 43 := by omega
    simp [writeDigits, Buffer.set, Buffer.cString, Buffer.toList, List.takeWhile, atoi,
      skipSpace, isSpace_digit, atoiDigits, isDigit_digit ha, isDigit_digit hb, decimalValue,
      h45, h43]
    rw [wrap16_id] <;> omega
  | [a, b, c], _, _, hd =>
    have ha : a < 10 := hd a (by simp)
    have hb : b < 10 := hd b (by simp)
    have hc : c < 10 := hd c (by simp)
    have h45 : a + 48 ≠ 45 := by omega
    have h43 : a + 48 ≠ 43 := by omega
    simp [writeDigits, Buffer.set, Buffer.cString, Buffer.toList, List.takeWhile, atoi,
      skipSpace, isSpace_digit, atoiDigits, isDigit_digit ha, isDigit_digit hb,
      isDigit_digit hc, decimalValue, h45, h43]
    rw [wrap16_id] <;> omega

theorem run_frame (fl : UartFlags) (hfl : fl.HighByte) (s : State) (ds : List Nat)
    (hds : IsDigits ds) (hidx : s.bufferIndex = 0)
    (hfit : (itoa (wrap16 (decimalValue ds - s.cpuUsage))).length ≤ 4) :
    run fl s (frameWords ds) = frameOutcome s ds := by
  have hlen : 0 + ds.length ≤ 4 := by have := hds.2.1; omega
  have hrun := run_digits fl hfl ds hds.2.2 s 0 (by simpa using hidx) hlen
  have hn : ds.length < 4 := by have := hds.2.1; omega
  have hb : inBounds ((ds.length : Nat) : Int) = true := by simp [inBounds]; omega
  have hw : wrap16 ((ds.length : Int) + 1) = ((ds.length + 1 : Nat) : Int) := by
    rw [wrap16_id] <;> push_cast <;> omega
  rw [frameWords, run_append fl _ _ s (by rw [hrun]), hrun]
  simp only [READ_TO_CHAR, run, Nat.zero_add]
  rw [step_terminator fl hfl _ hb]
  simp only [hw, Int.toNat_ofNat]
  have hcf := completeFrame_ok
    { buffer := (writeDigits s.buffer 0 ds).set ds.length 33,
      bufferIndex := ((ds.length + 1 : Nat) : Int), cpuUsage := s.cpuUsage,
      oldCpuUsage := s.oldCpuUsage, steps := s.steps, port := s.port }
    [Event.store (ds.length : Int) 33] ds.length hn rfl (decimalValue ds)
    (atoi_frame_buffer _ ds hds) hfit
  rw [hcf]
  simp [frameOutcome]

theorem itoa_eq_toString (n : Int) : itoa n = (toString n).toList := by
  cases n with
  | ofNat m =>
    have : ¬ (Int.ofNat m < 0) := by simp
    simp only [itoa, this, if_false]
    rfl
  | negSucc m =>
    have : (Int.negSucc m < 0) := Int.negSucc_lt_zero m
    simp only [itoa, this, if_true]
    rfl

theorem itoa_length_le {n : Int} (h1 : -999 ≤ n) (h2 : n ≤ 9999) : (itoa n).length ≤ 4 := by
  unfold itoa
  split
  · have : n.natAbs < 10 ^ 3 := by omega
    have := Nat.toDigitsCore_length 10 (by norm_num) (n.natAbs + 1) n.natAbs 3 this (by norm_num)
    simp only [Nat.toDigits, List.length_cons]
    omega
  · have : n.natAbs < 10 ^ 4 := by omega
    have := Nat.toDigitsCore_length 10 (by norm_num) (n.natAbs + 1) n.natAbs 4 this (by norm_num)
    simpa [Nat.toDigits] using this

theorem atoiDigits_bound (l : List Nat) (acc : Int) (h : 0 ≤ acc) :
    0 ≤ atoiDigits acc l ∧ atoiDigits acc l + 1 ≤ (acc + 1) * 10 ^ l.length := by
  induction l generalizing acc with
  | nil => simp [atoiDigits, h]
  | cons c cs ih =>
    have hp : (1 : Int) ≤ 10 ^ cs.length := one_le_pow₀ (by norm_num)
    simp only [atoiDigits, List.length_cons, pow_succ]
    split
    · next hc =>
      simp only [isDigit, Bool.and_eq_true, decide_eq_true_eq] at hc
      have h0 : 0 ≤ acc * 10 + ((c : Int) - 48) := by omega
      obtain ⟨i1, i2⟩ := ih _ h0
      refine ⟨i1, le_trans i2 ?_⟩
      have : acc * 10 + ((c : Int) - 48) + 1 ≤ (acc + 1) * 10 := by omega
      calc (acc * 10 + ((c : Int) - 48) + 1) * 10 ^ cs.length
          ≤ ((acc + 1) * 10) * 10 ^ cs.length :=
            mul_le_mul_of_nonneg_right this (by positivity)
        _ = (acc + 1) * (10 ^ cs.length * 10) := by ring
    · refine ⟨h, ?_⟩
      nlinarith

theorem skipSpace_length (l : List Nat) : (skipSpace l).length ≤ l.length := by
  induction l with
  | nil => simp [skipSpace]
  | cons c cs ih =>
    simp only [skipSpace]
    split
    · simp only [List.length_cons]; omega
    · simp

theorem atoi_bound (l : List Nat) (h : l.length ≤ 3) : -99 ≤ atoi l ∧ atoi l ≤ 999 := by
  have hl := skipSpace_length l
  unfold atoi
  cases hs : skipSpace l with
  | nil => simp
  | cons c cs =>
    rw [hs] at hl
    simp only [List.length_cons] at hl
    have hcs : cs.length ≤ 2 := by omega
    have b1 := atoiDigits_bound cs 0 le_rfl
    have b2 := atoiDigits_bound (c :: cs) 0 le_rfl
    have p1 : (10 : Int) ^ cs.length ≤ 10 ^ 2 := pow_le_pow_right₀ (by norm_num) hcs
    have p2 : (10 : Int) ^ (c :: cs).length ≤ 10 ^ 3 :=
      pow_le_pow_right₀ (by norm_num) (by simp only [List.length_cons]; omega)
    simp only [zero_add, one_mul] at b1 b2
    have q1 : atoiDigits 0 cs + 1 ≤ 100 := le_trans b1.2 (by simpa using p1)
    have q2 : atoiDigits 0 (c :: cs) + 1 ≤ 1000 := le_trans b2.2 (by simpa using p2)
    have r1 := b1.1
    have r2 := b2.1
    simp only
    split_ifs <;> (rw [wrap16_id] <;> omega)

theorem cString_length (b : Buffer) (j : Nat) (hj : j < 4) :
    (b.set j 0).cString.length ≤ 3 := by
  obtain ⟨c0, c1, c2, c3⟩ := b
  match j, hj with
  | 0, _ => simp [Buffer.set, Buffer.cString, Buffer.toList, List.takeWhile]
  | 1, _ =>
    simp only [Buffer.set, Buffer.cString, Buffer.toList, List.takeWhile]
    split <;> simp
  | 2, _ =>
    simp only [Buffer.set, Buffer.cString, Buffer.toList, List.takeWhile]
    split <;> [split; skip] <;> simp
  | 3, _ =>
    simp only [Buffer.set, Buffer.cString, Buffer.toList, List.takeWhile]
    split <;> [(split <;> [split; skip]); skip] <;> simp


theorem completeFrame_cpuUsage (s : State) (evs : List Event)
    (h : -99 ≤ s.cpuUsage ∧ s.cpuUsage ≤ 999) :
    -99 ≤ (completeFrame s evs).state.cpuUsage ∧ (completeFrame s evs).state.cpuUsage ≤ 999 := by
  unfold completeFrame
  by_cases hb : inBounds (wrap16 (s.bufferIndex - 1)) = true
  · have hj : (wrap16 (s.bufferIndex - 1)).toNat < 4 := by
      simp only [inBounds, Bool.and_eq_true, decide_eq_true_eq] at hb
      omega
    have hat := atoi_bound _ (cString_length s.buffer _ hj)
    simp only [hb, Bool.not_true, Bool.false_eq_true, if_false]
    split <;> exact hat
  · simp only [hb, Bool.not_false, if_true]
    exact h

theorem step_cpuUsage (fl : UartFlags) (s : State) (w : Nat)
    (h : -99 ≤ s.cpuUsage ∧ s.cpuUsage ≤ 999) :
    -99 ≤ (step fl s w).state.cpuUsage ∧ (step fl s w).state.cpuUsage ≤ 999 := by
  unfold step
  split
  · exact h
  · split
    · simp
    · simp only
      split
      · exact h
      · split
        · exact completeFrame_cpuUsage _ _ h
        · exact h

theorem reachable_cpuUsage {fl : UartFlags} {s : State} (h : Reachable fl s) :
    -99 ≤ s.cpuUsage ∧ s.cpuUsage ≤ 999 := by
  induction h with
  | init junk portd => simp [init]
  | step s w _ _ ih => exact step_cpuUsage fl s w ih

theorem serialOut_append (a b : List Event) : serialOut (a ++ b) = serialOut a ++ serialOut b := by
  induction a with
  | nil => simp [serialOut]
  | cons e es ih => cases e <;> simp [serialOut, ih]

theorem motorTrace_append (a b : List Event) :
    motorTrace (a ++ b) = motorTrace a ++ motorTrace b := by
  induction a with
  | nil => simp [motorTrace]
  | cons e es ih => cases e <;> simp [motorTrace, ih]

theorem storeIndices_append (a b : List Event) :
    storeIndices (a ++ b) = storeIndices a ++ storeIndices b := by
  induction a with
  | nil => simp [storeIndices]
  | cons e es ih => cases e <;> simp [storeIndices, ih]

theorem pulseCount_append (a b : List Event) :
    pulseCount (a ++ b) = pulseCount a + pulseCount b := by
  induction a with
  | nil => simp [pulseCount]
  | cons e es ih => cases e <;> simp [pulseCount, ih, Nat.add_assoc]

theorem serialOut_uartPuts (l : List Char) : serialOut (uartPuts l) = l := by
  induction l with
  | nil => rfl
  | cons c cs ih => simpa [uartPuts, serialOut] using ih

theorem motorTrace_uartPuts (l : List Char) : motorTrace (uartPuts l) = [] := by
  induction l with
  | nil => rfl
  | cons c cs ih => simpa [uartPuts, motorTrace] using ih

theorem storeIndices_uartPuts (l : List Char) : storeIndices (uartPuts l) = [] := by
  induction l with
  | nil => rfl
  | cons c cs ih => simpa [uartPuts, storeIndices] using ih

theorem pulseCount_uartPuts (l : List Char) : pulseCount (uartPuts l) = 0 := by
  induction l with
  | nil => rfl
  | cons c cs ih => simpa [uartPuts, pulseCount] using ih

theorem doStepsLoop_events (k : Nat) (port : Nat) :
    (doStepsLoop k port).2 = (List.replicate k pulseCycle).flatten := by
  induction k generalizing port with
  | zero => simp [doStepsLoop]
  | succ k ih => simp [doStepsLoop, ih, List.replicate_succ]

theorem serialOut_cycles (k : Nat) : serialOut (List.replicate k pulseCycle).flatten = [] := by
  induction k with
  | zero => rfl
  | succ k ih => simp [List.replicate_succ, serialOut_append, ih]; rfl

theorem storeIndices_cycles (k : Nat) :
    storeIndices (List.replicate k pulseCycle).flatten = [] := by
  induction k with
  | zero => rfl
  | succ k ih => simp [List.replicate_succ, storeIndices_append, ih]; rfl

theorem pulseCount_cycles (k : Nat) : pulseCount (List.replicate k pulseCycle).flatten = k := by
  induction k with
  | zero => rfl
  | succ k ih =>
    simp only [List.replicate_succ, List.flatten_cons, pulseCount_append, ih]
    have : pulseCount pulseCycle = 1 := by decide
    omega

theorem motorTrace_cycles (k : Nat) :
    motorTrace (List.replicate k pulseCycle).flatten = (List.replicate k pulseCycle).flatten := by
  induction k with
  | zero => rfl
  | succ k ih =>
    simp only [List.replicate_succ, List.flatten_cons, motorTrace_append, ih]
    rfl

/-- The number of loop iterations of `doSteps` when the product does not overflow. -/
theorem doSteps_events {n : Int} (h : n.natAbs ≤ 8191) (port : Nat) :
    (doSteps n port).2 = (List.replicate (4 * n.natAbs) pulseCycle).flatten := by
  have ha : abs16 n = (n.natAbs : Int) := by
    unfold abs16
    split <;> (rw [wrap16_id] <;> omega)
  have hw : (wrap16 (abs16 n * STEP_FACTOR)).toNat = 4 * n.natAbs := by
    rw [ha, STEP_FACTOR, wrap16_id] <;> omega
  simp only [doSteps, hw, doStepsLoop_events]

theorem decimalValue_bound {ds : List Nat} (h : IsDigits ds) :
    0 ≤ decimalValue ds ∧ decimalValue ds ≤ 999 := by
  obtain ⟨h1, h3, hd⟩ := h
  match ds, h1, h3, hd with
  | [a], _, _, hd =>
    have ha : a < 10 := hd a (by simp)
    simp [decimalValue]; omega
  | [a, b], _, _, hd =>
    have ha : a < 10 := hd a (by simp)
    have hb : b < 10 := hd b (by simp)
    simp [decimalValue]; omega
  | [a, b, c], _, _, hd =>
    have ha : a < 10 := hd a (by simp)
    have hb : b < 10 := hd b (by simp)
    have hc : c < 10 := hd c (by simp)
    simp [decimalValue]; omega

theorem frameStores_serialOut (i : Nat) (ds : List Nat) : serialOut (frameStores i ds) = [] := by
  induction ds generalizing i with
  | nil => rfl
  | cons d ds ih => simpa [frameStores, serialOut] using ih (i + 1)

theorem frameStores_motorTrace (i : Nat) (ds : List Nat) :
    motorTrace (frameStores i ds) = [] := by
  induction ds generalizing i with
  | nil => rfl
  | cons d ds ih => simpa [frameStores, motorTrace] using ih (i + 1)

theorem frameStores_pulseCount (i : Nat) (ds : List Nat) :
    pulseCount (frameStores i ds) = 0 := by
  induction ds generalizing i with
  | nil => rfl
  | cons d ds ih => simpa [frameStores, pulseCount] using ih (i + 1)

theorem moveMotor_serialOut (n : Int) (port : Nat) : serialOut (moveMotor n port).2 = [] := by
  unfold moveMotor
  split
  · simp [setClockWise, doSteps, doStepsLoop_events, serialOut, serialOut_cycles]
  · split
    · simp [setCounterClockWise, doSteps, doStepsLoop_events, serialOut, serialOut_cycles]
    · rfl

/-- The serial output of a digit frame is the reply and the terminator. -/
theorem frameOutcome_serialOut (s : State) (ds : List Nat) :
    serialOut (frameOutcome s ds).events =
      itoa (wrap16 (decimalValue ds - s.cpuUsage)) ++ ['!'] := by
  simp [frameOutcome, serialOut_append, frameStores_serialOut, serialOut_uartPuts,
    moveMotor_serialOut, serialOut, memsetEvents]

/-- The reply of a digit frame fits `output` in every state of the main loop. -/
theorem reachable_fit {fl : UartFlags} {s : State} (hs : Reachable fl s) {ds : List Nat}
    (hds : IsDigits ds) :
    wrap16 (decimalValue ds - s.cpuUsage) = decimalValue ds - s.cpuUsage ∧
    (itoa (wrap16 (decimalValue ds - s.cpuUsage))).length ≤ 4 := by
  have hr := reachable_cpuUsage hs
  have hv := decimalValue_bound hds
  have hw : wrap16 (decimalValue ds - s.cpuUsage) = decimalValue ds - s.cpuUsage := by
    rw [wrap16_id] <;> omega
  rw [hw]
  exact ⟨rfl, itoa_length_le (by omega) (by omega)⟩

theorem reachable_run {fl : UartFlags} (ws : List Nat) {s : State} (hs : Reachable fl s)
    (h : (run fl s ws).fault = none) : Reachable fl (run fl s ws).state := by
  induction ws generalizing s with
  | nil => simpa [run] using hs
  | cons w ws ih =>
    simp only [run] at h ⊢
    cases hf : (step fl s w).fault with
    | some f => simp [hf] at h
    | none =>
      simp only [hf] at h ⊢
      exact ih (Reachable.step s w hs hf) h

/-- A digit frame received in a state of the main loop with an empty buffer. -/
theorem run_frame_reachable (fl : UartFlags) (hfl : fl.HighByte) (s : State)
    (hs : Reachable fl s) (hidx : s.bufferIndex = 0) (ds : List Nat) (hds : IsDigits ds) :
    run fl s (frameWords ds) = frameOutcome s ds :=
  run_frame fl hfl s ds hds hidx (reachable_fit hs hds).2

theorem isDigits_50 : IsDigits [5, 0] := ⟨by decide, by decide, by decide⟩
theorem isDigits_75 : IsDigits [7, 5] := ⟨by decide, by decide, by decide⟩

theorem testBit_SET_HIGH_ne (pin i p : Nat) (hi : i < 8) (hne : i ≠ pin) :
    (SET_HIGH pin p).testBit i = p.testBit i := by
  have h := Nat.testBit_mod_two_pow (p ||| (1 <<< pin)) 8 i
  have h8 : (2:Nat)^8 = 256 := by norm_num
  rw [h8] at h
  rw [SET_HIGH, h, Nat.testBit_or, Nat.one_shiftLeft, Nat.testBit_two_pow]
  simp [hi, Ne.symm hne]

theorem testBit_SET_LOW_ne (pin i p : Nat) (hi : i < 8) (hne : i ≠ pin) :
    (SET_LOW pin p).testBit i = p.testBit i := by
  have h := Nat.testBit_mod_two_pow (p &&& (65535 ^^^ (1 <<< pin))) 8 i
  have h8 : (2:Nat)^8 = 256 := by norm_num
  have h16 : (65535 : Nat).testBit i = true := by
    interval_cases i <;> decide
  rw [h8] at h
  rw [SET_LOW, h, Nat.testBit_and, Nat.testBit_xor, Nat.one_shiftLeft, Nat.testBit_two_pow, h16]
  simp [hi, Ne.symm hne]

theorem testBit_SET_HIGH_self (pin p : Nat) (hi : pin < 8) :
    (SET_HIGH pin p).testBit pin = true := by
  have h := Nat.testBit_mod_two_pow (p ||| (1 <<< pin)) 8 pin
  have h8 : (2:Nat)^8 = 256 := by norm_num
  rw [h8] at h
  rw [SET_HIGH, h, Nat.testBit_or, Nat.one_shiftLeft, Nat.testBit_two_pow]
  simp [hi]

theorem testBit_SET_LOW_self (pin p : Nat) (hi : pin < 8) :
    (SET_LOW pin p).testBit pin = false := by
  have h := Nat.testBit_mod_two_pow (p &&& (65535 ^^^ (1 <<< pin))) 8 pin
  have h8 : (2:Nat)^8 = 256 := by norm_num
  have h16 : (65535 : Nat).testBit pin = true := by
    interval_cases pin <;> decide
  rw [h8] at h
  rw [SET_LOW, h, Nat.testBit_and, Nat.testBit_xor, Nat.one_shiftLeft, Nat.testBit_two_pow, h16]
  simp

theorem dirBit_SET_LOW (p : Nat) : dirBit (SET_LOW CWCWW_PIN p) = false :=
  testBit_SET_LOW_self _ p (by decide)

theorem dirBit_SET_HIGH (p : Nat) : dirBit (SET_HIGH CWCWW_PIN p) = true :=
  testBit_SET_HIGH_self _ p (by decide)

theorem dirBit_pulsePort (p : Nat) : dirBit (pulsePort p) = dirBit p := by
  simp only [dirBit, pulsePort, CWCWW_PIN, ENABLE_PIN, CLOCK_PIN]
  rw [testBit_SET_LOW_ne _ _ _ (by norm_num) (by norm_num),
    testBit_SET_HIGH_ne _ _ _ (by norm_num) (by norm_num),
    testBit_SET_LOW_ne _ _ _ (by norm_num) (by norm_num),
    testBit_SET_HIGH_ne _ _ _ (by norm_num) (by norm_num)]

theorem dirBit_doStepsLoop (k : Nat) (p : Nat) : dirBit (doStepsLoop k p).1 = dirBit p := by
  induction k generalizing p with
  | zero => rfl
  | succ k ih => simp only [doStepsLoop]; rw [ih, dirBit_pulsePort]

theorem dirBit_doSteps (n : Int) (p : Nat) : dirBit (doSteps n p).1 = dirBit p :=
  dirBit_doStepsLoop _ p

theorem abs16_neg {n : Int} (h1 : -32768 ≤ n) (h2 : n ≤ 32767) :
    abs16 (wrap16 (-n)) = abs16 n := by
  unfold abs16 wrap16
  split <;> split <;> omega

theorem netPosition_append (d : Bool) (a b : List Event) :
    netPosition d (a ++ b) = netPosition d a + netPosition (finalDir d a) b := by
  induction a generalizing d with
  | nil => simp [netPosition, finalDir]
  | cons e es ih =>
    cases e with
    | tx c => simp [netPosition, finalDir, ih]
    | store i v => simp [netPosition, finalDir, ih]
    | delay m => simp [netPosition, finalDir, ih]
    | high p =>
      simp only [List.cons_append, netPosition, finalDir]
      split_ifs <;> simp [ih, add_assoc]
    | low p =>
      simp only [List.cons_append, netPosition, finalDir]
      split_ifs <;> simp [ih]

theorem finalDir_append (d : Bool) (a b : List Event) :
    finalDir d (a ++ b) = finalDir (finalDir d a) b := by
  induction a generalizing d with
  | nil => simp [finalDir]
  | cons e es ih =>
    cases e with
    | tx c => simp [finalDir, ih]
    | store i v => simp [finalDir, ih]
    | delay m => simp [finalDir, ih]
    | high p => simp only [List.cons_append, finalDir]; split_ifs <;> simp [ih]
    | low p => simp only [List.cons_append, finalDir]; split_ifs <;> simp [ih]

theorem netPosition_cycles (d : Bool) (k : Nat) :
    netPosition d (List.replicate k pulseCycle).flatten = if d then (k : Int) else -(k : Int) := by
  induction k with
  | zero => cases d <;> rfl
  | succ k ih =>
    have h1 : netPosition d pulseCycle = if d then 1 else -1 := by cases d <;> decide
    have h2 : finalDir d pulseCycle = d := by cases d <;> decide
    simp only [List.replicate_succ, List.flatten_cons, netPosition_append, h1, h2, ih]
    cases d <;> simp
    all_goals omega

theorem finalDir_cycles (d : Bool) (k : Nat) :
    finalDir d (List.replicate k pulseCycle).flatten = d := by
  induction k with
  | zero => rfl
  | succ k ih =>
    have h2 : finalDir d pulseCycle = d := by cases d <;> decide
    simp only [List.replicate_succ, List.flatten_cons, finalDir_append, h2, ih]

theorem netPosition_frameStores (d : Bool) (i : Nat) (ds : List Nat) :
    netPosition d (frameStores i ds) = 0 := by
  induction ds generalizing i with
  | nil => rfl
  | cons x xs ih => simpa [frameStores, netPosition] using ih (i + 1)

theorem finalDir_frameStores (d : Bool) (i : Nat) (ds : List Nat) :
    finalDir d (frameStores i ds) = d := by
  induction ds generalizing i with
  | nil => rfl
  | cons x xs ih => simpa [frameStores, finalDir] using ih (i + 1)

theorem netPosition_uartPuts (d : Bool) (l : List Char) : netPosition d (uartPuts l) = 0 := by
  induction l with
  | nil => rfl
  | cons c cs ih => simpa [uartPuts, netPosition] using ih

theorem finalDir_uartPuts (d : Bool) (l : List Char) : finalDir d (uartPuts l) = d := by
  induction l with
  | nil => rfl
  | cons c cs ih => simpa [uartPuts, finalDir] using ih

/-- The motor block moves the net position by four times the delta. -/
theorem netPosition_moveMotor (d : Bool) {n : Int} (h : n.natAbs ≤ 8191) (port : Nat) :
    netPosition d (moveMotor n port).2 = 4 * n := by
  unfold moveMotor
  split
  · have hk : ((4 * n.natAbs : Nat) : Int) = 4 * n := by omega
    simp only [setClockWise, doSteps_events h, netPosition_append, finalDir]
    generalize 4 * n.natAbs = m at hk
    simp [netPosition, CWCWW_PIN, netPosition_cycles, hk]
  · split
    · have hk : ((4 * n.natAbs : Nat) : Int) = -(4 * n) := by omega
      simp only [setCounterClockWise, doSteps_events h, netPosition_append, finalDir]
      generalize 4 * n.natAbs = m at hk
      simp [netPosition, CWCWW_PIN, netPosition_cycles, hk]
    · simp [netPosition]; omega

/-- A digit frame moves the net position by four times the delta. -/
theorem netPosition_frameOutcome (d : Bool) (s : State) (ds : List Nat)
    (h : (wrap16 (decimalValue ds - s.cpuUsage)).natAbs ≤ 8191) :
    netPosition d (frameOutcome s ds).events = 4 * wrap16 (decimalValue ds - s.cpuUsage) := by
  simp only [frameOutcome, netPosition_append, finalDir_append, netPosition_frameStores,
    finalDir_frameStores, netPosition_uartPuts, finalDir_uartPuts, netPosition_moveMotor _ h]
  simp [netPosition, memsetEvents]

/-- The reset moves the net position by minus four times the magnitude of the Reading. -/
theorem netPosition_reset (d : Bool) (k : Nat) :
    netPosition d ([Event.low CWCWW_PIN, Event.delay 1] ++
      (List.replicate k pulseCycle).flatten) = -(k : Int) := by
  simp [netPosition_append, netPosition, finalDir, netPosition_cycles]


/-- The reset branch of the loop, for a Reading whose fourfold fits the 16-bit `int`. -/
theorem step_reset (fl : UartFlags) (hfl : fl.HighByte) (s : State)
    (h : s.cpuUsage.natAbs ≤ 8191) :
    step fl s RESET_STEPPER_CHAR =
      ⟨[Event.low CWCWW_PIN, Event.delay 1] ++
          (List.replicate (4 * s.cpuUsage.natAbs) pulseCycle).flatten,
        { s with port := (doSteps s.cpuUsage (setCounterClockWise s.port).1).1, cpuUsage := 0 },
        none⟩ := by
  have hnd : RESET_STEPPER_CHAR &&& fl.UART_NO_DATA = 0 := noData_byte hfl (by decide)
  have hw : warnings fl RESET_STEPPER_CHAR = [] := warnings_byte hfl (by decide)
  have hev := doSteps_events h (setCounterClockWise s.port).1
  simp only [step, hnd, hw, hev]
  simp [setCounterClockWise]

theorem run_single (fl : UartFlags) (s : State) (w : Nat) : run fl s [w] = step fl s w := by
  simp only [run]
  cases hf : (step fl s w).fault with
  | some f => rfl
  | none => simp [← hf]

/-- One element of a stream, received with an empty buffer and a Reading in `0..999`. -/
theorem run_item (fl : UartFlags) (hfl : fl.HighByte) (it : Item) (hv : it.Valid) (s : State)
    (hidx : s.bufferIndex = 0) (hr : 0 ≤ s.cpuUsage ∧ s.cpuUsage ≤ 999) :
    (run fl s it.words).fault = none ∧ (run fl s it.words).state.bufferIndex = 0 ∧
    0 ≤ (run fl s it.words).state.cpuUsage ∧ (run fl s it.words).state.cpuUsage ≤ 999 ∧
    (it = Item.reset → (run fl s it.words).state.cpuUsage = 0) ∧
    ∀ d, netPosition d (run fl s it.words).events =
      4 * ((run fl s it.words).state.cpuUsage - s.cpuUsage) := by
  cases it with
  | frame ds =>
    have hb := decimalValue_bound hv
    have hw : wrap16 (decimalValue ds - s.cpuUsage) = decimalValue ds - s.cpuUsage := by
      rw [wrap16_id] <;> omega
    have hfit : (itoa (wrap16 (decimalValue ds - s.cpuUsage))).length ≤ 4 := by
      rw [hw]; exact itoa_length_le (by omega) (by omega)
    have hn : (wrap16 (decimalValue ds - s.cpuUsage)).natAbs ≤ 8191 := by rw [hw]; omega
    simp only [Item.words]
    rw [run_frame fl hfl s ds hv hidx hfit]
    refine ⟨rfl, rfl, hb.1, hb.2, fun h => Item.noConfusion h, fun d => ?_⟩
    rw [netPosition_frameOutcome d s ds hn, hw]
    rfl
  | reset =>
    simp only [Item.words, run_single]
    rw [step_reset fl hfl s (by omega)]
    refine ⟨rfl, hidx, le_rfl, by norm_num, fun _ => rfl, fun d => ?_⟩
    rw [netPosition_reset]
    simp only [zero_sub]
    omega

/-- A stream of digit frames and resets, received with an empty buffer and a Reading in
`0..999`, runs without a fault and moves the net position by four times the change of the
Reading. -/
theorem run_stream (fl : UartFlags) (hfl : fl.HighByte) (items : List Item)
    (hv : ∀ it ∈ items, it.Valid) (s : State) (hidx : s.bufferIndex = 0)
    (hr : 0 ≤ s.cpuUsage ∧ s.cpuUsage ≤ 999) :
    (run fl s (streamWords items)).fault = none ∧
    (run fl s (streamWords items)).state.bufferIndex = 0 ∧
    0 ≤ (run fl s (streamWords items)).state.cpuUsage ∧
    (run fl s (streamWords items)).state.cpuUsage ≤ 999 ∧
    ∀ d, netPosition d (run fl s (streamWords items)).events =
      4 * ((run fl s (streamWords items)).state.cpuUsage - s.cpuUsage) := by
  induction items generalizing s with
  | nil => exact ⟨rfl, hidx, hr.1, hr.2, fun d => by simp [streamWords, run, netPosition]⟩
  | cons it its ih =>
    obtain ⟨f1, i1, l1, u1, _, n1⟩ := run_item fl hfl it (hv it (by simp)) s hidx hr
    obtain ⟨f2, i2, l2, u2, n2⟩ :=
      ih (fun x hx => hv x (by simp [hx])) (run fl s it.words).state i1 ⟨l1, u1⟩
    simp only [streamWords]
    rw [run_append fl _ _ s f1]
    refine ⟨f2, i2, l2, u2, fun d => ?_⟩
    simp only [netPosition_append, n1, n2]
    ring

theorem streamWords_append (a b : List Item) :
    streamWords (a ++ b) = streamWords a ++ streamWords b := by
  induction a with
  | nil => rfl
  | cons x xs ih => simp [streamWords, ih]

theorem storeIndices_frameOutcome_three (s : State) (a b c : Nat) :
    storeIndices (frameOutcome s [a, b, c]).events = [0, 1, 2, 3, 3, 0, 1, 2, 3] := by
  have hm : storeIndices (moveMotor (wrap16 (decimalValue [a, b, c] - s.cpuUsage)) s.port).2
      = [] := by
    unfold moveMotor
    split
    · simp [setClockWise, doSteps, doStepsLoop_events, storeIndices_append, storeIndices,
        storeIndices_cycles]
    · split
      · simp [setCounterClockWise, doSteps, doStepsLoop_events, storeIndices_append,
          storeIndices, storeIndices_cycles]
      · rfl
  simp [frameOutcome, storeIndices_append, storeIndices_uartPuts, hm, frameStores,
    storeIndices, memsetEvents]

theorem uartPuts_append (a b : List Char) : uartPuts (a ++ b) = uartPuts a ++ uartPuts b := by
  simp [uartPuts]

theorem warnings_eq (fl : UartFlags) (w : Nat) :
    warnings fl w =
      uartPuts (warningText (decide (w &&& fl.UART_FRAME_ERROR ≠ 0))
        (decide (w &&& fl.UART_OVERRUN_ERROR ≠ 0))
        (decide (w &&& fl.UART_BUFFER_OVERFLOW ≠ 0))) := by
  simp only [warnings, warningText, uartPuts_append]
  congr 1
  · congr 1
    · split <;> simp_all [uartPuts]
    · split <;> simp_all [uartPuts]
  · split <;> simp_all [uartPuts]

theorem serialOut_doSteps (n : Int) (p : Nat) : serialOut (doSteps n p).2 = [] := by
  simp [doSteps, doStepsLoop_events, serialOut_cycles]

/-- After the events so far, completing a frame writes to the serial link nothing (when it
stops with a fault) or the reply and the terminator. -/
theorem completeFrame_events (s : State) (evs : List Event) :
    ∃ rest, (completeFrame s evs).events = evs ++ rest ∧
      (serialOut rest = [] ∨ ∃ n : Int, serialOut rest = itoa n ++ ['!']) := by
  unfold completeFrame
  simp only
  split
  · exact ⟨[Event.store (wrap16 (s.bufferIndex - 1)) 0], rfl, Or.inl rfl⟩
  · split
    · exact ⟨[Event.store (wrap16 (s.bufferIndex - 1)) 0], rfl, Or.inl rfl⟩
    · refine ⟨[Event.store (wrap16 (s.bufferIndex - 1)) 0] ++
          uartPuts (itoa (wrap16 (atoi (s.buffer.set (wrap16 (s.bufferIndex - 1)).toNat
            0).cString - s.cpuUsage))) ++ [Event.tx '!'] ++
          (moveMotor (wrap16 (atoi (s.buffer.set (wrap16 (s.bufferIndex - 1)).toNat
            0).cString - s.cpuUsage)) s.port).2 ++ memsetEvents, ?_,
        Or.inr ⟨wrap16 (atoi (s.buffer.set (wrap16 (s.bufferIndex - 1)).toNat
            0).cString - s.cpuUsage), ?_⟩⟩
      · simp only [List.append_assoc]
      · simp only [serialOut_append, serialOut_uartPuts, moveMotor_serialOut]
        simp [serialOut, memsetEvents]

/-- The reset branch does not touch `buffer` or `bufferIndex`. -/
theorem step_reset_buffer (fl : UartFlags) (s : State) :
    (step fl s RESET_STEPPER_CHAR).state.buffer = s.buffer ∧
    (step fl s RESET_STEPPER_CHAR).state.bufferIndex = s.bufferIndex := by
  by_cases h : RESET_STEPPER_CHAR &&& fl.UART_NO_DATA = 0
  · simp [step, h]
  · simp [step, h]

theorem run_cons_ok (fl : UartFlags) {s s1 : State} {w : Nat} {e : List Event}
    (h : step fl s w = ⟨e, s1, none⟩) (ws : List Nat) :
    run fl s (w :: ws) = ⟨e ++ (run fl s1 ws).events, (run fl s1 ws).state, (run fl s1 ws).fault⟩ := by
  simp only [run, h]

theorem run_reset_inside_frame (fl : UartFlags) (hfl : fl.HighByte) (junk : Buffer)
    (portd : Nat) :
    (run fl (init junk portd) [53, RESET_STEPPER_CHAR, 48, 33]).fault = none ∧
    (run fl (init junk portd) [53, RESET_STEPPER_CHAR, 48, 33]).state.cpuUsage = 50 ∧
    serialOut (run fl (init junk portd) [53, RESET_STEPPER_CHAR, 48, 33]).events =
      "50!".toList := by
  have h1 : step fl (init junk portd) 53 =
      ⟨[Event.store 0 53], ⟨junk.set 0 53, 1, 0, 0, 0, startup portd⟩, none⟩ := by
    rw [step_store fl _ 53 (noData_byte hfl (by decide)) (by decide) (by decide) (by rfl),
      warnings_byte hfl (by decide)]
    rfl
  have h2 : step fl ⟨junk.set 0 53, 1, 0, 0, 0, startup portd⟩ RESET_STEPPER_CHAR =
      ⟨[Event.low CWCWW_PIN, Event.delay 1],
       ⟨junk.set 0 53, 1, 0, 0, 0, (doSteps 0 (setCounterClockWise (startup portd)).1).1⟩,
       none⟩ := by
    rw [step_reset fl hfl _ (by show (0 : Int).natAbs ≤ 8191; decide)]
    rfl
  have h3 : step fl ⟨junk.set 0 53, 1, 0, 0, 0,
        (doSteps 0 (setCounterClockWise (startup portd)).1).1⟩ 48 =
      ⟨[Event.store 1 48],
       ⟨(junk.set 0 53).set 1 48, 2, 0, 0, 0,
         (doSteps 0 (setCounterClockWise (startup portd)).1).1⟩, none⟩ := by
    rw [step_store fl _ 48 (noData_byte hfl (by decide)) (by decide) (by decide) (by rfl),
      warnings_byte hfl (by decide)]
    rfl
  have h4 : step fl ⟨(junk.set 0 53).set 1 48, 2, 0, 0, 0,
        (doSteps 0 (setCounterClockWise (startup portd)).1).1⟩ 33 =
      ⟨[Event.store 2 33] ++ [Event.store 2 0] ++ uartPuts (itoa 50) ++ [Event.tx '!'] ++
          (moveMotor 50 (doSteps 0 (setCounterClockWise (startup portd)).1).1).2 ++
          memsetEvents,
       ⟨Buffer.zero, 0, 50, 0, 50,
         (moveMotor 50 (doSteps 0 (setCounterClockWise (startup portd)).1).1).1⟩, none⟩ := by
    rw [step_terminator fl hfl _ (by rfl)]
    exact completeFrame_ok
      ⟨((junk.set 0 53).set 1 48).set 2 33, ((2 + 1 : Nat) : Int), 0, 0, 0,
        (doSteps 0 (setCounterClockWise (startup portd)).1).1⟩
      [Event.store 2 33] 2 (by decide) rfl 50
      (atoi_frame_buffer junk [5, 0] isDigits_50)
      (by show (itoa (wrap16 (50 - 0))).length ≤ 4; decide)
  rw [run_cons_ok fl h1, run_cons_ok fl h2, run_cons_ok fl h3, run_cons_ok fl h4]
  refine ⟨rfl, rfl, ?_⟩
  simp only [run, serialOut_append, serialOut_uartPuts, moveMotor_serialOut]
  decide

/-- A stream of resets and of digit frames with values in `0..100`, received with an empty
buffer and a Reading in `0..100`, runs without a fault and ends with a Reading in
`0..100`. -/
theorem run_stream_percent (fl : UartFlags) (hfl : fl.HighByte) (items : List Item)
    (hv : ∀ it ∈ items, it.Percent) (s : State) (hidx : s.bufferIndex = 0)
    (hr : 0 ≤ s.cpuUsage ∧ s.cpuUsage ≤ 100) :
    (run fl s (streamWords items)).fault = none ∧
    (run fl s (streamWords items)).state.bufferIndex = 0 ∧
    0 ≤ (run fl s (streamWords items)).state.cpuUsage ∧
    (run fl s (streamWords items)).state.cpuUsage ≤ 100 := by
  induction items generalizing s with
  | nil => exact ⟨rfl, hidx, hr.1, hr.2⟩
  | cons it its ih =>
    have hit := hv it (by simp)
    have hrest : ∀ x ∈ its, x.Percent := fun x hx => hv x (by simp [hx])
    simp only [streamWords]
    cases it with
    | frame ds =>
      obtain ⟨hds, h100⟩ := hit
      have hb := decimalValue_bound hds
      have hw : wrap16 (decimalValue ds - s.cpuUsage) = decimalValue ds - s.cpuUsage := by
        rw [wrap16_id] <;> omega
      have hfit : (itoa (wrap16 (decimalValue ds - s.cpuUsage))).length ≤ 4 := by
        rw [hw]; exact itoa_length_le (by omega) (by omega)
      have hf := run_frame fl hfl s ds hds hidx hfit
      simp only [Item.words]
      rw [run_append fl _ _ s (by rw [hf]; rfl), hf]
      exact ih hrest (frameOutcome s ds).state rfl ⟨hb.1, h100⟩
    | reset =>
      have hs := step_reset fl hfl s (by omega)
      simp only [Item.words]
      rw [run_append fl _ _ s (by rw [run_single, hs]), run_single, hs]
      exact ih hrest _ hidx ⟨le_rfl, by norm_num⟩

theorem SET_HIGH_lt (pin p : Nat) : SET_HIGH pin p < 256 := Nat.mod_lt _ (by norm_num)

theorem SET_LOW_lt (pin p : Nat) : SET_LOW pin p < 256 := Nat.mod_lt _ (by norm_num)

theorem testBit_byte_high {p i : Nat} (hp : p < 256) (hi : 8 ≤ i) : p.testBit i = false := by
  apply Nat.testBit_lt_two_pow
  calc p < 256 := hp
    _ = 2 ^ 8 := by norm_num
    _ ≤ 2 ^ i := Nat.pow_le_pow_right (by norm_num) hi

theorem moveMotor_events {n : Int} (h : n.natAbs ≤ 8191) (port : Nat) :
    (moveMotor n port).2 = expectedMotion n := by
  unfold moveMotor expectedMotion
  split
  · simp [setClockWise, doSteps_events h]
  · split
    · simp [setCounterClockWise, doSteps_events h]
    · rfl

theorem dirBit_moveMotor (n : Int) (port : Nat) :
    (0 < n → dirBit (moveMotor n port).1 = true) ∧
    (n < 0 → dirBit (moveMotor n port).1 = false) := by
  unfold moveMotor
  constructor
  · intro h
    simp only [h, if_true, dirBit_doSteps, setClockWise, dirBit_SET_HIGH]
  · intro h
    have h2 : ¬ (0 < n) := by omega
    simp only [h, h2, if_true, if_false, dirBit_doSteps, setCounterClockWise, dirBit_SET_LOW]

theorem pulseCount_expectedMotion (n : Int) : pulseCount (expectedMotion n) = 4 * n.natAbs := by
  unfold expectedMotion
  split
  · simp [pulseCount_append, pulseCount_cycles, pulseCount, CWCWW_PIN, CLOCK_PIN]
  · split
    · simp [pulseCount_append, pulseCount_cycles, pulseCount]
    · have : n = 0 := by omega
      subst this
      rfl

/-- A completed frame whose terminator store was in bounds and that did not fault had a
reply that fits `output`. -/
theorem completeFrame_fit (s : State) (evs : List Event)
    (hb : inBounds (wrap16 (s.bufferIndex - 1)) = true)
    (hok : (completeFrame s evs).fault = none) :
    (itoa (wrap16 (atoi (s.buffer.set (wrap16 (s.bufferIndex - 1)).toNat 0).cString -
      s.cpuUsage))).length ≤ 4 := by
  unfold completeFrame at hok
  simp only [hb, Bool.not_true, Bool.false_eq_true, if_false] at hok
  by_contra hc
  have : outputSize < (itoa (wrap16 (atoi (s.buffer.set (wrap16 (s.bufferIndex - 1)).toNat
      0).cString - s.cpuUsage))).length + 1 := by
    simp only [outputSize]; omega
  simp [this] at hok

/-- The terminator, received in a state of the main loop, when the iteration does not
fault: the index was in bounds and the outcome is that of a completed frame with a parsed
value `v` in `-99..999`. -/
theorem step_terminator_reachable (fl : UartFlags) (hfl : fl.HighByte) (s : State)
    (hs : Reachable fl s) (hok : (step fl s READ_TO_CHAR).fault = none) :
    ∃ v : Int, -99 ≤ v ∧ v ≤ 999 ∧ -99 ≤ s.cpuUsage ∧ s.cpuUsage ≤ 999 ∧
      step fl s READ_TO_CHAR =
        ⟨[Event.store s.bufferIndex 33] ++ [Event.store s.bufferIndex 0] ++
            uartPuts (itoa (v - s.cpuUsage)) ++ [Event.tx '!'] ++
            (moveMotor (v - s.cpuUsage) s.port).2 ++ memsetEvents,
         { buffer := Buffer.zero, bufferIndex := 0, cpuUsage := v, oldCpuUsage := s.cpuUsage,
           steps := v - s.cpuUsage, port := (moveMotor (v - s.cpuUsage) s.port).1 }, none⟩ := by
  have hr := reachable_cpuUsage hs
  have hnd : 33 &&& fl.UART_NO_DATA = 0 := noData_byte hfl (by decide)
  obtain ⟨buf, idx, cpu, old, st, port⟩ := s
  simp only at hr
  have hb : inBounds idx = true := by
    by_contra hb
    have hb2 : inBounds idx = false := by simpa using hb
    simp [step, hnd, READ_TO_CHAR, RESET_STEPPER_CHAR, hb2] at hok
  have hi : 0 ≤ idx ∧ idx < 4 := by
    simpa [inBounds] using hb
  obtain ⟨n, hn⟩ : ∃ n : Nat, idx = (n : Int) := ⟨idx.toNat, by omega⟩
  subst hn
  have hn4 : n < 4 := by omega
  have e1 : wrap16 ((n : Int) + 1) = ((n + 1 : Nat) : Int) := by
    rw [wrap16_id] <;> push_cast <;> omega
  have e2 : wrap16 (((n + 1 : Nat) : Int) - 1) = (n : Int) := by
    rw [wrap16_id] <;> push_cast <;> omega
  have hst := step_terminator fl hfl ⟨buf, (n : Int), cpu, old, st, port⟩ hb
  simp only [e1, Int.toNat_ofNat] at hst
  simp only [READ_TO_CHAR] at hok ⊢
  rw [hst] at hok ⊢
  have hfit := completeFrame_fit _ _ (by simp only [e2]; exact hb) hok
  simp only [e2, Int.toNat_ofNat] at hfit
  have hat := atoi_bound _ (cString_length (buf.set n 33) n hn4)
  have hwr : wrap16 (atoi ((buf.set n 33).set n 0).cString - cpu) =
      atoi ((buf.set n 33).set n 0).cString - cpu := by
    rw [wrap16_id] <;> omega
  refine ⟨atoi ((buf.set n 33).set n 0).cString, hat.1, hat.2, hr.1, hr.2, ?_⟩
  have hcf := completeFrame_ok
    { buffer := buf.set n 33, bufferIndex := ((n + 1 : Nat) : Int), cpuUsage := cpu,
      oldCpuUsage := old, steps := st, port := port }
    [Event.store (n : Int) 33] n hn4 rfl (atoi ((buf.set n 33).set n 0).cString) rfl hfit
  rw [hcf]
  simp only [hwr]

/-- One loop iteration of `doSteps` changes no port bit other than enable and clock. -/
theorem testBit_pulsePort (p i : Nat) (hi : i < 8) (h2 : i ≠ ENABLE_PIN) (h4 : i ≠ CLOCK_PIN) :
    (pulsePort p).testBit i = p.testBit i := by
  simp only [pulsePort]
  rw [testBit_SET_LOW_ne _ _ _ hi h2, testBit_SET_HIGH_ne _ _ _ hi h4,
    testBit_SET_LOW_ne _ _ _ hi h4, testBit_SET_HIGH_ne _ _ _ hi h2]

/-- One loop iteration of `doSteps` leaves the clock line high. -/
theorem clock_pulsePort (p : Nat) : (pulsePort p).testBit CLOCK_PIN = true := by
  simp only [pulsePort]
  rw [testBit_SET_LOW_ne _ _ _ (by decide) (by decide),
    testBit_SET_HIGH_self _ _ (by decide)]

theorem testBit_doStepsLoop (k p i : Nat) (hi : i < 8) (h2 : i ≠ ENABLE_PIN)
    (h4 : i ≠ CLOCK_PIN) : (doStepsLoop k p).1.testBit i = p.testBit i := by
  induction k generalizing p with
  | zero => rfl
  | succ k ih => simp only [doStepsLoop]; rw [ih, testBit_pulsePort p i hi h2 h4]

theorem clock_doStepsLoop (k p : Nat) (h : p.testBit CLOCK_PIN = true) :
    (doStepsLoop k p).1.testBit CLOCK_PIN = true := by
  induction k generalizing p with
  | zero => exact h
  | succ k ih => simp only [doStepsLoop]; exact ih _ (clock_pulsePort p)

theorem linesHigh_doSteps (n : Int) (p : Nat) (h : LinesHigh p) : LinesHigh (doSteps n p).1 :=
  ⟨by rw [doSteps, testBit_doStepsLoop _ _ _ (by decide) (by decide) (by decide)]; exact h.1,
   clock_doStepsLoop _ _ h.2⟩

theorem linesHigh_setClockWise (p : Nat) (h : LinesHigh p) : LinesHigh (setClockWise p).1 :=
  ⟨by rw [setClockWise, testBit_SET_HIGH_ne _ _ _ (by decide) (by decide)]; exact h.1,
   by rw [setClockWise, testBit_SET_HIGH_ne _ _ _ (by decide) (by decide)]; exact h.2⟩

theorem linesHigh_setCounterClockWise (p : Nat) (h : LinesHigh p) :
    LinesHigh (setCounterClockWise p).1 :=
  ⟨by rw [setCounterClockWise, testBit_SET_LOW_ne _ _ _ (by decide) (by decide)]; exact h.1,
   by rw [setCounterClockWise, testBit_SET_LOW_ne _ _ _ (by decide) (by decide)]; exact h.2⟩

theorem linesHigh_moveMotor (n : Int) (p : Nat) (h : LinesHigh p) :
    LinesHigh (moveMotor n p).1 := by
  unfold moveMotor
  split
  · exact linesHigh_doSteps _ _ (linesHigh_setClockWise _ h)
  · split
    · exact linesHigh_doSteps _ _ (linesHigh_setCounterClockWise _ h)
    · exact h

theorem linesHigh_completeFrame (s : State) (evs : List Event) (h : LinesHigh s.port) :
    LinesHigh (completeFrame s evs).state.port := by
  unfold completeFrame
  simp only
  split
  · exact h
  · split
    · exact h
    · exact linesHigh_moveMotor _ _ h

theorem linesHigh_step (fl : UartFlags) (s : State) (w : Nat) (h : LinesHigh s.port) :
    LinesHigh (step fl s w).state.port := by
  unfold step
  split
  · exact h
  · split
    · exact linesHigh_doSteps _ _ (linesHigh_setCounterClockWise _ h)
    · simp only
      split
      · exact h
      · split
        · exact linesHigh_completeFrame _ _ h
        · exact h

/-- A property of the state that every iteration preserves holds after every run. -/
theorem run_preserves (fl : UartFlags) (P : State → Prop)
    (hstep : ∀ s w, P s → P (step fl s w).state) (ws : List Nat) (s : State) (h : P s) :
    P (run fl s ws).state := by
  induction ws generalizing s with
  | nil => exact h
  | cons w ws ih =>
    simp only [run]
    cases hf : (step fl s w).fault with
    | some f => exact hstep s w h
    | none => exact ih _ (hstep s w h)

theorem linesHigh_startup (portd : Nat) : LinesHigh (startup portd) :=
  ⟨by rw [startup, testBit_SET_HIGH_ne _ _ _ (by decide) (by decide),
      testBit_SET_HIGH_self _ _ (by decide)],
   testBit_SET_HIGH_self _ _ (by decide)⟩

/-- A stream of digit frames and resets, received with an empty buffer, a Reading in
`0..999` and a delta in `-999..999`, runs without a fault and ends with a delta in
`-999..999`. -/
theorem run_stream_steps (fl : UartFlags) (hfl : fl.HighByte) (items : List Item)
    (hv : ∀ it ∈ items, it.Valid) (s : State) (hidx : s.bufferIndex = 0)
    (hr : 0 ≤ s.cpuUsage ∧ s.cpuUsage ≤ 999) (hst : -999 ≤ s.steps ∧ s.steps ≤ 999) :
    (run fl s (streamWords items)).fault = none ∧
    -999 ≤ (run fl s (streamWords items)).state.steps ∧
    (run fl s (streamWords items)).state.steps ≤ 999 := by
  induction items generalizing s with
  | nil => exact ⟨rfl, hst.1, hst.2⟩
  | cons it its ih =>
    have hit := hv it (by simp)
    have hrest : ∀ x ∈ its, x.Valid := fun x hx => hv x (by simp [hx])
    simp only [streamWords]
    cases it with
    | frame ds =>
      have hb := decimalValue_bound hit
      have hw : wrap16 (decimalValue ds - s.cpuUsage) = decimalValue ds - s.cpuUsage := by
        rw [wrap16_id] <;> omega
      have hfit : (itoa (wrap16 (decimalValue ds - s.cpuUsage))).length ≤ 4 := by
        rw [hw]; exact itoa_length_le (by omega) (by omega)
      have hf := run_frame fl hfl s ds hit hidx hfit
      simp only [Item.words]
      rw [run_append fl _ _ s (by rw [hf]; rfl), hf]
      refine ih hrest (frameOutcome s ds).state rfl hb ?_
      show -999 ≤ wrap16 (decimalValue ds - s.cpuUsage) ∧
        wrap16 (decimalValue ds - s.cpuUsage) ≤ 999
      rw [hw]; omega
    | reset =>
      have hs := step_reset fl hfl s (by omega)
      simp only [Item.words]
      rw [run_append fl _ _ s (by rw [run_single, hs]), run_single, hs]
      exact ih hrest _ hidx ⟨le_rfl, by norm_num⟩ hst

theorem smallInts_completeFrame (s : State) (evs : List Event) (h : SmallInts s) :
    SmallInts (completeFrame s evs).state := by
  obtain ⟨hc, ho, hs⟩ := h
  unfold completeFrame
  by_cases hb : inBounds (wrap16 (s.bufferIndex - 1)) = true
  · have hj : (wrap16 (s.bufferIndex - 1)).toNat < 4 := by
      simp only [inBounds, Bool.and_eq_true, decide_eq_true_eq] at hb
      omega
    have hat := atoi_bound _ (cString_length s.buffer _ hj)
    have hw : wrap16 (atoi (s.buffer.set (wrap16 (s.bufferIndex - 1)).toNat 0).cString -
        s.cpuUsage) = atoi (s.buffer.set (wrap16 (s.bufferIndex - 1)).toNat 0).cString -
        s.cpuUsage := by
      rw [wrap16_id] <;> omega
    simp only [hb, Bool.not_true, Bool.false_eq_true, if_false]
    split
    · refine ⟨hat, hc, ?_⟩
      simp only [hw]; omega
    · refine ⟨hat, hc, ?_⟩
      simp only [hw]; omega
  · simp only [hb, Bool.not_false, if_true]
    exact ⟨hc, ho, hs⟩

theorem smallInts_step (fl : UartFlags) (s : State) (w : Nat) (h : SmallInts s) :
    SmallInts (step fl s w).state := by
  unfold step
  split
  · exact h
  · split
    · exact ⟨⟨by norm_num, by norm_num⟩, h.2.1, h.2.2⟩
    · simp only
      split
      · exact h
      · split
        · exact smallInts_completeFrame _ _ h
        · exact h

theorem smallInts_init (junk : Buffer) (portd : Nat) : SmallInts (init junk portd) := by
  simp [SmallInts, init]

/-- For an argument of magnitude at most 1098 the product of `doSteps` is exact. -/
theorem stepNumber_exact {x : Int} (h1 : -1098 ≤ x) (h2 : x ≤ 1098) :
    wrap16 (abs16 x * STEP_FACTOR) = ((x.natAbs * 4 : Nat) : Int) ∧ x.natAbs * 4 ≤ 4392 := by
  have ha : abs16 x = (x.natAbs : Int) := by
    unfold abs16
    split <;> (rw [wrap16_id] <;> omega)
  rw [ha, STEP_FACTOR, wrap16_id] <;> omega

/-- What `step` does in each of the three branches. -/
theorem step_branch (fl : UartFlags) (s : State) (w : Nat) :
    (branch fl w = Branch.noData → step fl s w = ⟨[], s, none⟩) ∧
    (branch fl w = Branch.reset →
      step fl s w =
        ⟨warnings fl w ++ (setCounterClockWise s.port).2 ++
            (doSteps s.cpuUsage (setCounterClockWise s.port).1).2,
          { s with port := (doSteps s.cpuUsage (setCounterClockWise s.port).1).1,
                   cpuUsage := 0 }, none⟩) ∧
    (branch fl w = Branch.accumulate →
      ∃ rest, (step fl s w).events =
        warnings fl w ++ Event.store s.bufferIndex (w % 256) :: rest) := by
  by_cases h1 : w &&& fl.UART_NO_DATA = 0
  · by_cases h2 : w = RESET_STEPPER_CHAR
    · subst h2
      have hb : branch fl RESET_STEPPER_CHAR = Branch.reset := by simp [branch, h1]
      rw [hb]
      refine ⟨fun h => Branch.noConfusion h, fun _ => ?_, fun h => Branch.noConfusion h⟩
      simp [step, h1]
    · have hb : branch fl w = Branch.accumulate := by simp [branch, h1, h2]
      rw [hb]
      refine ⟨fun h => Branch.noConfusion h, fun h => Branch.noConfusion h, fun _ => ?_⟩
      unfold step
      simp only [h1, h2, ne_eq, not_true_eq_false, if_false]
      split
      · exact ⟨[], rfl⟩
      · split
        · obtain ⟨rest, hr, _⟩ := completeFrame_events
            { s with bufferIndex := wrap16 (s.bufferIndex + 1),
                     buffer := s.buffer.set s.bufferIndex.toNat (w % 256) }
            (warnings fl w ++ [Event.store s.bufferIndex (w % 256)])
          exact ⟨rest, by rw [hr]; simp⟩
        · exact ⟨[], rfl⟩
  · have hb : branch fl w = Branch.noData := by simp [branch, h1]
    rw [hb]
    refine ⟨fun _ => ?_, fun h => Branch.noConfusion h, fun h => Branch.noConfusion h⟩
    simp [step, h1]

/-- A word that is neither flagged "no data" nor the reset character nor the terminator:
it is stored at `bufferIndex`, which is incremented, and nothing else changes. -/
theorem step_accumulate (fl : UartFlags) (s : State) (w : Nat)
    (hnd : w &&& fl.UART_NO_DATA = 0) (h35 : w ≠ RESET_STEPPER_CHAR)
    (h33 : w ≠ READ_TO_CHAR) :
    (step fl s w).events = warnings fl w ++ [Event.store s.bufferIndex (w % 256)] ∧
    (step fl s w).state.bufferIndex = wrap16 (s.bufferIndex + 1) ∧
    (step fl s w).state.cpuUsage = s.cpuUsage ∧
    (step fl s w).state.oldCpuUsage = s.oldCpuUsage ∧
    (step fl s w).state.port = s.port ∧
    (inBounds s.bufferIndex = true →
      (step fl s w).fault = none ∧
      (step fl s w).state.buffer = s.buffer.set s.bufferIndex.toNat (w % 256)) := by
  by_cases hb : inBounds s.bufferIndex = true
  · simp [step, hnd, h35, h33, hb]
  · have hb2 : inBounds s.bufferIndex = false := by simpa using hb
    simp [step, hnd, h35, h33, hb2]

/-- A word equals the reset character exactly when its low byte is `'#'` and its high byte
is 0. -/
theorem word_eq_reset_iff (w : Nat) :
    w = RESET_STEPPER_CHAR ↔ w % 256 = 35 ∧ w / 256 = 0 := by
  simp only [RESET_STEPPER_CHAR]
  omega

/-- A word with a status flag set is not a plain data byte. -/
theorem flagged_ne_byte {m w c : Nat} (hm : m % 256 = 0) (hw : w &&& m ≠ 0) (hc : c < 256) :
    w ≠ c := by
  intro h
  rw [h] at hw
  exact hw (and_highByte hm hc)

/-! ## The claims -/

/-- Claim C1. Frame completion computes and reports the delta.  In every state of the main
loop with `bufferIndex = 0` and Reading `r`, feeding a string of 1 to 3 ASCII digits with
decimal value `v` and then the terminator `'!'`, all without status flags, runs without a
fault, writes to the serial link exactly the base-10 signed representation of `v - r`
followed by `'!'`, and leaves Reading `= v` and PreviousReading `= r`. -/
theorem frame_reports_delta (fl : UartFlags) (hfl : fl.HighByte) (s : State)
    (hs : Reachable fl s) (hidx : s.bufferIndex = 0) (ds : List Nat) (hds : IsDigits ds) :
    (run fl s (frameWords ds)).fault = none ∧
    serialOut (run fl s (frameWords ds)).events =
      (toString (decimalValue ds - s.cpuUsage)).toList ++ ['!'] ∧
    (run fl s (frameWords ds)).state.cpuUsage = decimalValue ds ∧
    (run fl s (frameWords ds)).state.oldCpuUsage = s.cpuUsage := by
  rw [run_frame_reachable fl hfl s hs hidx ds hds, frameOutcome_serialOut,
    (reachable_fit hs hds).1, itoa_eq_toString]
  exact ⟨rfl, rfl, rfl, rfl⟩

/-- Claim C1 at a concrete input: the frame "75!" in the initial state. -/
theorem frame_reports_delta_witness :
    sampleFlags.HighByte ∧ (init Buffer.zero 0).bufferIndex = 0 ∧ IsDigits [7, 5] ∧
    ((run sampleFlags (init Buffer.zero 0) (frameWords [7, 5])).fault = none ∧
    serialOut (run sampleFlags (init Buffer.zero 0) (frameWords [7, 5])).events =
      (toString (decimalValue [7, 5] - (init Buffer.zero 0).cpuUsage)).toList ++ ['!'] ∧
    (run sampleFlags (init Buffer.zero 0) (frameWords [7, 5])).state.cpuUsage =
      decimalValue [7, 5] ∧
    (run sampleFlags (init Buffer.zero 0) (frameWords [7, 5])).state.oldCpuUsage =
      (init Buffer.zero 0).cpuUsage) :=
  ⟨by decide, rfl, isDigits_75,
   frame_reports_delta sampleFlags (by decide) (init Buffer.zero 0) (Reachable.init _ _) rfl
     [7, 5] isDigits_75⟩

/-- Claim C2. From the initial state, feeding "50!" and then "75!" makes the second frame
emit exactly "25!", and feeding "75!" and then "50!" makes the second frame emit exactly
"-25!"; none of these runs faults. -/
theorem delta_sequences (fl : UartFlags) (hfl : fl.HighByte) (junk : Buffer) (portd : Nat) :
    (run fl (init junk portd) (asciiWords "50!")).fault = none ∧
    (run fl (run fl (init junk portd) (asciiWords "50!")).state (asciiWords "75!")).fault = none ∧
    serialOut (run fl (run fl (init junk portd) (asciiWords "50!")).state
      (asciiWords "75!")).events = "25!".toList ∧
    (run fl (init junk portd) (asciiWords "75!")).fault = none ∧
    (run fl (run fl (init junk portd) (asciiWords "75!")).state (asciiWords "50!")).fault = none ∧
    serialOut (run fl (run fl (init junk portd) (asciiWords "75!")).state
      (asciiWords "50!")).events = "-25!".toList := by
  have w50 : asciiWords "50!" = frameWords [5, 0] := by decide
  have w75 : asciiWords "75!" = frameWords [7, 5] := by decide
  have r0 : Reachable fl (init junk portd) := Reachable.init junk portd
  have f50 := run_frame_reachable fl hfl _ r0 rfl _ isDigits_50
  have f75 := run_frame_reachable fl hfl _ r0 rfl _ isDigits_75
  have r50 : Reachable fl (frameOutcome (init junk portd) [5, 0]).state := by
    have := reachable_run (frameWords [5, 0]) r0 (by rw [f50]; rfl)
    rwa [f50] at this
  have r75 : Reachable fl (frameOutcome (init junk portd) [7, 5]).state := by
    have := reachable_run (frameWords [7, 5]) r0 (by rw [f75]; rfl)
    rwa [f75] at this
  rw [w50, w75, f50, f75, run_frame_reachable fl hfl _ r50 rfl _ isDigits_75,
    run_frame_reachable fl hfl _ r75 rfl _ isDigits_50, frameOutcome_serialOut,
    frameOutcome_serialOut]
  refine ⟨rfl, rfl, ?_, rfl, rfl, ?_⟩
  · show itoa (wrap16 (decimalValue [7, 5] - decimalValue [5, 0])) ++ ['!'] = "25!".toList
    decide
  · show itoa (wrap16 (decimalValue [5, 0] - decimalValue [7, 5])) ++ ['!'] = "-25!".toList
    decide

/-- Claim C2 at the sample status masks. -/
theorem delta_sequences_witness :
    sampleFlags.HighByte ∧
    serialOut (run sampleFlags (run sampleFlags (init Buffer.zero 0) (asciiWords "75!")).state
      (asciiWords "50!")).events = "-25!".toList :=
  ⟨by decide, (delta_sequences sampleFlags (by decide) Buffer.zero 0).2.2.2.2.2⟩

/-- Claim C3. Repeating a value causes no movement.  A digit frame (1 to 3 digits) with value
`v`, received with an empty buffer in a state whose Reading already is `v`, emits exactly
"0!", issues zero pulse cycles, produces no motor signal at all (so neither `setClockWise`
nor `setCounterClockWise` nor a pulse of `doSteps` happens) and leaves the stepper port as
it was. -/
theorem repeated_value_no_movement (fl : UartFlags) (hfl : fl.HighByte) (s : State)
    (hidx : s.bufferIndex = 0) (ds : List Nat) (hds : IsDigits ds)
    (hv : s.cpuUsage = decimalValue ds) :
    (run fl s (frameWords ds)).fault = none ∧
    serialOut (run fl s (frameWords ds)).events = "0!".toList ∧
    pulseCount (run fl s (frameWords ds)).events = 0 ∧
    motorTrace (run fl s (frameWords ds)).events = [] ∧
    (run fl s (frameWords ds)).state.port = s.port := by
  have hz : wrap16 (decimalValue ds - s.cpuUsage) = 0 := by rw [hv, sub_self]; rfl
  have hfit : (itoa (wrap16 (decimalValue ds - s.cpuUsage))).length ≤ 4 := by
    rw [hz]; decide
  rw [run_frame fl hfl s ds hds hidx hfit]
  have hm : moveMotor 0 s.port = (s.port, []) := by simp [moveMotor]
  refine ⟨rfl, ?_, ?_, ?_, ?_⟩
  · rw [frameOutcome_serialOut, hz]; decide
  · simp [frameOutcome, hz, hm, pulseCount_append, frameStores_pulseCount, pulseCount_uartPuts,
      pulseCount, memsetEvents]
  · simp [frameOutcome, hz, hm, motorTrace_append, frameStores_motorTrace, motorTrace_uartPuts,
      motorTrace, memsetEvents]
  · simp [frameOutcome, hz, hm]

/-- Claim C3 at a concrete input: the frame "0!" in the initial state. -/
theorem repeated_value_no_movement_witness :
    sampleFlags.HighByte ∧ IsDigits [0] ∧
    serialOut (run sampleFlags (init Buffer.zero 0) (frameWords [0])).events = "0!".toList ∧
    motorTrace (run sampleFlags (init Buffer.zero 0) (frameWords [0])).events = [] :=
  have h := repeated_value_no_movement sampleFlags (by decide) (init Buffer.zero 0) rfl [0]
    ⟨by decide, by decide, by decide⟩ rfl
  ⟨by decide, ⟨by decide, by decide, by decide⟩, h.2.1, h.2.2.2.1⟩

/-- Claim C4. Reset command.  In every state of the main loop with Reading `r`, the word
`35` (`'#'`) sets the direction signal (pin 5) low, then issues exactly `|r| * 4` pulse
cycles, and sets Reading to 0; nothing is written to the serial link and PreviousReading is
unchanged. -/
theorem reset_unwinds (fl : UartFlags) (hfl : fl.HighByte) (s : State) (hs : Reachable fl s) :
    (step fl s RESET_STEPPER_CHAR).fault = none ∧
    (step fl s RESET_STEPPER_CHAR).events =
      [Event.low CWCWW_PIN, Event.delay 1] ++
        (List.replicate (4 * s.cpuUsage.natAbs) pulseCycle).flatten ∧
    pulseCount (step fl s RESET_STEPPER_CHAR).events = 4 * s.cpuUsage.natAbs ∧
    dirBit (step fl s RESET_STEPPER_CHAR).state.port = false ∧
    (step fl s RESET_STEPPER_CHAR).state.cpuUsage = 0 ∧
    serialOut (step fl s RESET_STEPPER_CHAR).events = [] ∧
    (step fl s RESET_STEPPER_CHAR).state.oldCpuUsage = s.oldCpuUsage := by
  have hr := reachable_cpuUsage hs
  have hstep := step_reset fl hfl s (by omega)
  rw [hstep]
  refine ⟨rfl, rfl, ?_, ?_, rfl, ?_, rfl⟩
  · simp [pulseCount_append, pulseCount_cycles, pulseCount]
  · simp only [dirBit_doSteps, setCounterClockWise, dirBit_SET_LOW]
  · simp [serialOut_append, serialOut_cycles, serialOut]

/-- Claim C4 at a concrete input: the reset after the frame "2!". -/
theorem reset_unwinds_witness :
    sampleFlags.HighByte ∧
    pulseCount (step sampleFlags (run sampleFlags (init Buffer.zero 0) (frameWords [2])).state
      RESET_STEPPER_CHAR).events =
      4 * (run sampleFlags (init Buffer.zero 0) (frameWords [2])).state.cpuUsage.natAbs :=
  ⟨by decide,
   (reset_unwinds sampleFlags (by decide) _
      (reachable_run (frameWords [2]) (Reachable.init Buffer.zero 0) (by decide))).2.2.1⟩

/-- Counterexample to C5 as stated: `doSteps(8192)` issues no pulse cycle at all, not
`abs(8192) * 4 = 32768`, because the product does not fit the 16-bit `int` `stepNumber`. -/
theorem doSteps_overflow_8192 :
    pulseCount (doSteps 8192 0).2 = 0 ∧
    ¬ (pulseCount (doSteps 8192 0).2 = (8192 : Int).natAbs * 4) := by
  decide

/-- Claim C5, amended.  For every value `n` of type `int` with `|n| <= 8191`, `doSteps(n)`
issues exactly `abs(n) * 4` pulse cycles, each one the six events of `pulseCycle`; and for
every value `n` of type `int`, `doSteps(n)` and `doSteps(-n)` produce the same signal trace
and port value. -/
theorem doSteps_pulse_cycles (n : Int) (port : Nat) (hint : -32768 ≤ n ∧ n ≤ 32767) :
    (n.natAbs ≤ 8191 →
      (doSteps n port).2 = (List.replicate (n.natAbs * 4) pulseCycle).flatten ∧
      pulseCount (doSteps n port).2 = n.natAbs * 4) ∧
    doSteps (wrap16 (-n)) port = doSteps n port := by
  constructor
  · intro h
    rw [doSteps_events h port, Nat.mul_comm, pulseCount_cycles]
    exact ⟨rfl, rfl⟩
  · simp only [doSteps, abs16_neg hint.1 hint.2]

/-- Claim C5, amended, at the concrete input `-3`. -/
theorem doSteps_pulse_cycles_witness :
    ((-3 : Int).natAbs ≤ 8191 ∧ pulseCount (doSteps (-3) 24).2 = (-3 : Int).natAbs * 4) ∧
    doSteps (wrap16 (-(-3))) 24 = doSteps (-3) 24 :=
  ⟨⟨by decide, ((doSteps_pulse_cycles (-3) 24 (by decide)).1 (by decide)).2⟩,
   (doSteps_pulse_cycles (-3) 24 (by decide)).2⟩

/-- Claim C6. Motor position tracks the reading.  The net position is the number of pulse
cycles issued while the direction signal is high minus the number issued while it is low.
For every input stream of digit frames (1 to 3 ASCII digits and the terminator) and reset
characters, started from the initial state, the run has no fault and the net position
after the stream equals `4 * Reading`; since every prefix of such a stream is such a
stream, this holds after every completed frame and after every reset.  After a reset the
net position is 0. -/
theorem position_tracks_reading (fl : UartFlags) (hfl : fl.HighByte) (junk : Buffer)
    (portd : Nat) (items : List Item) (hv : ∀ it ∈ items, it.Valid) :
    (run fl (init junk portd) (streamWords items)).fault = none ∧
    netPosition (dirBit (init junk portd).port)
        (run fl (init junk portd) (streamWords items)).events =
      4 * (run fl (init junk portd) (streamWords items)).state.cpuUsage ∧
    netPosition (dirBit (init junk portd).port)
        (run fl (init junk portd) (streamWords (items ++ [Item.reset]))).events = 0 := by
  have h0 : (0 : Int) ≤ (init junk portd).cpuUsage ∧ (init junk portd).cpuUsage ≤ 999 := by
    simp [init]
  obtain ⟨f, i, l, u, n⟩ := run_stream fl hfl items hv (init junk portd) rfl h0
  refine ⟨f, ?_, ?_⟩
  · rw [n]; simp [init]
  · obtain ⟨_, _, _, _, z, m⟩ := run_item fl hfl Item.reset trivial _ i ⟨l, u⟩
    have hz := z rfl
    rw [streamWords_append, run_append fl _ _ _ f]
    simp only [netPosition_append, n]
    have hs : streamWords [Item.reset] = Item.reset.words := by simp [streamWords]
    rw [hs, m, hz]
    simp [init]

/-- Claim C6 at the concrete stream "75!", `'#'`, "50!". -/
theorem position_tracks_reading_witness :
    sampleFlags.HighByte ∧ (∀ it ∈ [Item.frame [7, 5], Item.reset, Item.frame [5, 0]], it.Valid) ∧
    netPosition (dirBit (init Buffer.zero 0).port)
        (run sampleFlags (init Buffer.zero 0)
          (streamWords [Item.frame [7, 5], Item.reset, Item.frame [5, 0]])).events =
      4 * (run sampleFlags (init Buffer.zero 0)
          (streamWords [Item.frame [7, 5], Item.reset, Item.frame [5, 0]])).state.cpuUsage :=
  have hv : ∀ it ∈ [Item.frame [7, 5], Item.reset, Item.frame [5, 0]], it.Valid := by
    intro it hit
    simp only [List.mem_cons, List.mem_singleton, List.not_mem_nil, or_false] at hit
    rcases hit with h | h | h
    · rw [h]; exact isDigits_75
    · rw [h]; trivial
    · rw [h]; exact isDigits_50
  ⟨by decide, hv, (position_tracks_reading sampleFlags (by decide) Buffer.zero 0 _ hv).2.1⟩

/-- Claim C7. Capacity exactly met is safe.  A frame of exactly 3 ASCII digits and the
terminator, received in a state of the main loop with `bufferIndex = 0`, runs without a
fault; its stores into `buffer` are at the indices 0, 1, 2, 3 (terminator), 3 (NUL) and
0..3 (`memset`), all inside the 4-element array; the parsed Reading is the decimal value
of the three digits; afterwards the buffer is all zero and `bufferIndex` is 0. -/
theorem three_digit_frame_safe (fl : UartFlags) (hfl : fl.HighByte) (s : State)
    (hs : Reachable fl s) (hidx : s.bufferIndex = 0) (ds : List Nat) (hlen : ds.length = 3)
    (hd : ∀ d ∈ ds, d < 10) :
    (run fl s (frameWords ds)).fault = none ∧
    storeIndices (run fl s (frameWords ds)).events = [0, 1, 2, 3, 3, 0, 1, 2, 3] ∧
    (∀ i ∈ storeIndices (run fl s (frameWords ds)).events, 0 ≤ i ∧ i < (bufferSize : Int)) ∧
    (run fl s (frameWords ds)).state.cpuUsage = decimalValue ds ∧
    (run fl s (frameWords ds)).state.buffer = Buffer.zero ∧
    (run fl s (frameWords ds)).state.bufferIndex = 0 := by
  have hds : IsDigits ds := ⟨by omega, by omega, hd⟩
  rw [run_frame_reachable fl hfl s hs hidx ds hds]
  match ds, hlen with
  | [a, b, c], _ =>
    rw [storeIndices_frameOutcome_three]
    refine ⟨rfl, rfl, ?_, rfl, rfl, rfl⟩
    decide

/-- Claim C7 at a concrete input: the frame "100!" in the initial state. -/
theorem three_digit_frame_safe_witness :
    sampleFlags.HighByte ∧ [1, 0, 0].length = 3 ∧ (∀ d ∈ [1, 0, 0], d < 10) ∧
    storeIndices (run sampleFlags (init Buffer.zero 0) (frameWords [1, 0, 0])).events =
      [0, 1, 2, 3, 3, 0, 1, 2, 3] ∧
    (run sampleFlags (init Buffer.zero 0) (frameWords [1, 0, 0])).state.cpuUsage =
      decimalValue [1, 0, 0] :=
  have h := three_digit_frame_safe sampleFlags (by decide) (init Buffer.zero 0)
    (Reachable.init _ _) rfl [1, 0, 0] rfl (by decide)
  ⟨by decide, rfl, by decide, h.2.1, h.2.2.2.1⟩

/-- Claim C8. Over-long frames write out of bounds.  From any state with `bufferIndex = 0`,
four consecutive words without the `UART_NO_DATA` flag that are neither the reset
character nor the terminator are stored without a fault and leave `bufferIndex = 4`; the
next such word, or the terminator, is then stored at index 4, which is not below the
array size 4, so the run stops with `Fault.bufferOverrun 4`; no check stopped it, and
`bufferIndex` has been incremented to 5. -/
theorem overlong_frame_out_of_bounds (fl : UartFlags) (s : State) (hidx : s.bufferIndex = 0)
    (w1 w2 w3 w4 w5 : Nat) (h1 : Accumulates fl w1) (h2 : Accumulates fl w2)
    (h3 : Accumulates fl w3) (h4 : Accumulates fl w4)
    (h5 : w5 &&& fl.UART_NO_DATA = 0 ∧ (Accumulates fl w5 ∨ w5 = READ_TO_CHAR)) :
    (run fl s [w1, w2, w3, w4]).fault = none ∧
    (run fl s [w1, w2, w3, w4]).state.bufferIndex = 4 ∧
    ¬ ((4 : Int) < bufferSize) ∧
    Event.store 4 (w5 % 256) ∈ (step fl (run fl s [w1, w2, w3, w4]).state w5).events ∧
    (step fl (run fl s [w1, w2, w3, w4]).state w5).fault = some (Fault.bufferOverrun 4) ∧
    (step fl (run fl s [w1, w2, w3, w4]).state w5).state.bufferIndex = 5 := by
  obtain ⟨buf, idx, cpu, old, st, port⟩ := s
  simp only at hidx
  subst hidx
  obtain ⟨n1, r1, t1⟩ := h1
  obtain ⟨n2, r2, t2⟩ := h2
  obtain ⟨n3, r3, t3⟩ := h3
  obtain ⟨n4, r4, t4⟩ := h4
  obtain ⟨n5, h5⟩ := h5
  have r5 : w5 ≠ RESET_STEPPER_CHAR := by
    rcases h5 with h | h
    · exact h.2.1
    · rw [h]; decide
  have e1 : wrap16 (0 + 1) = 1 := by decide
  have e2 : wrap16 (1 + 1) = 2 := by decide
  have e3 : wrap16 (2 + 1) = 3 := by decide
  have e4 : wrap16 (3 + 1) = 4 := by decide
  have hrun : run fl ⟨buf, 0, cpu, old, st, port⟩ [w1, w2, w3, w4] =
      ⟨(warnings fl w1 ++ [Event.store 0 (w1 % 256)]) ++
        ((warnings fl w2 ++ [Event.store 1 (w2 % 256)]) ++
        ((warnings fl w3 ++ [Event.store 2 (w3 % 256)]) ++
        ((warnings fl w4 ++ [Event.store 3 (w4 % 256)]) ++ []))),
       ⟨⟨w1 % 256, w2 % 256, w3 % 256, w4 % 256⟩, 4, cpu, old, st, port⟩, none⟩ := by
    simp only [run]
    rw [step_store fl _ w1 n1 r1 t1 (by rfl)]
    simp only [e1]
    rw [step_store fl _ w2 n2 r2 t2 (by rfl)]
    simp only [e2]
    rw [step_store fl _ w3 n3 r3 t3 (by rfl)]
    simp only [e3]
    rw [step_store fl _ w4 n4 r4 t4 (by rfl)]
    simp only [e4]
    rfl
  rw [hrun]
  have hstep : step fl ⟨⟨w1 % 256, w2 % 256, w3 % 256, w4 % 256⟩, 4, cpu, old, st, port⟩ w5 =
      ⟨warnings fl w5 ++ [Event.store 4 (w5 % 256)],
       ⟨⟨w1 % 256, w2 % 256, w3 % 256, w4 % 256⟩, 5, cpu, old, st, port⟩,
       some (Fault.bufferOverrun 4)⟩ := by
    have hb : inBounds 4 = false := by decide
    have e5b : wrap16 5 = 5 := by decide
    simp [step, n5, r5, hb, e5b]
  rw [hstep]
  refine ⟨rfl, rfl, by decide, by simp, rfl, rfl⟩

/-- Claim C8 at a concrete input: "1234" and then the terminator. -/
theorem overlong_frame_out_of_bounds_witness :
    (init Buffer.zero 0).bufferIndex = 0 ∧ Accumulates sampleFlags 49 ∧
    (step sampleFlags (run sampleFlags (init Buffer.zero 0) [49, 50, 51, 52]).state
      READ_TO_CHAR).fault = some (Fault.bufferOverrun 4) :=
  ⟨rfl, ⟨by decide, by decide, by decide⟩,
   (overlong_frame_out_of_bounds sampleFlags (init Buffer.zero 0) rfl 49 50 51 52 READ_TO_CHAR
      ⟨by decide, by decide, by decide⟩ ⟨by decide, by decide, by decide⟩
      ⟨by decide, by decide, by decide⟩ ⟨by decide, by decide, by decide⟩
      ⟨by decide, Or.inr rfl⟩).2.2.2.2.1⟩

/-- Claim C9. Error flags produce warnings.  For every received word without the
`UART_NO_DATA` flag, in every state, the events of the iteration start with the texts
"UART Frame Error: ", "UART Overrun Error: " and "Buffer Overflow Error: " for exactly
those of the three flags that are set in the word, in that order (nothing when no flag is
set); whatever else the iteration writes to the serial link comes after them and is
either nothing or the reply to a completed frame. -/
theorem warnings_come_first (fl : UartFlags) (s : State) (w : Nat)
    (hnd : w &&& fl.UART_NO_DATA = 0) :
    ∃ rest, (step fl s w).events =
        uartPuts (warningText (decide (w &&& fl.UART_FRAME_ERROR ≠ 0))
          (decide (w &&& fl.UART_OVERRUN_ERROR ≠ 0))
          (decide (w &&& fl.UART_BUFFER_OVERFLOW ≠ 0))) ++ rest ∧
      (serialOut rest = [] ∨ ∃ n : Int, serialOut rest = itoa n ++ ['!']) := by
  rw [← warnings_eq]
  unfold step
  simp only [hnd, ne_eq, not_true_eq_false, if_false]
  split
  · refine ⟨_, by simp only [List.append_assoc]; rfl, Or.inl ?_⟩
    simp [serialOut_append, serialOut_doSteps, setCounterClockWise, serialOut]
  · split
    · exact ⟨[Event.store s.bufferIndex (w % 256)], rfl, Or.inl rfl⟩
    · split
      · obtain ⟨rest, h1, h2⟩ := completeFrame_events
          { s with bufferIndex := wrap16 (s.bufferIndex + 1),
                   buffer := s.buffer.set s.bufferIndex.toNat (w % 256) }
          (warnings fl w ++ [Event.store s.bufferIndex (w % 256)])
        refine ⟨Event.store s.bufferIndex (w % 256) :: rest, ?_, ?_⟩
        · rw [h1]; simp
        · simpa [serialOut] using h2
      · exact ⟨[Event.store s.bufferIndex (w % 256)], rfl, Or.inl rfl⟩

/-- Claim C9 at a concrete input: the byte `'#'` with the frame-error flag. -/
theorem warnings_come_first_witness :
    (2083 &&& sampleFlags.UART_NO_DATA = 0) ∧
    ∃ rest, (step sampleFlags (init Buffer.zero 0) 2083).events =
        uartPuts (warningText (decide (2083 &&& sampleFlags.UART_FRAME_ERROR ≠ 0))
          (decide (2083 &&& sampleFlags.UART_OVERRUN_ERROR ≠ 0))
          (decide (2083 &&& sampleFlags.UART_BUFFER_OVERFLOW ≠ 0))) ++ rest ∧
      (serialOut rest = [] ∨ ∃ n : Int, serialOut rest = itoa n ++ ['!']) :=
  ⟨by decide, warnings_come_first sampleFlags (init Buffer.zero 0) 2083 (by decide)⟩

/-- Claim C10, the code at the failing input.  With the sample status masks, after the
frame "2!": the unflagged `'#'` resets (8 pulse cycles, Reading 0, buffer index 0), but the
same byte with the frame-error flag set is not recognised as the reset character: it is
stored in `buffer[0]`, no pulse is issued and Reading stays 2.  Likewise after the digit
`'5'` the unflagged `'!'` completes the frame and replies "5!", but the flagged `'!'` is
stored as a further character and only the warning is written. -/
theorem flagged_control_bytes_not_recognised :
    (step sampleFlags (run sampleFlags (init Buffer.zero 0) (asciiWords "2!")).state
      35).state.cpuUsage = 0 ∧
    pulseCount (step sampleFlags (run sampleFlags (init Buffer.zero 0) (asciiWords "2!")).state
      35).events = 8 ∧
    (step sampleFlags (run sampleFlags (init Buffer.zero 0) (asciiWords "2!")).state
      35).state.bufferIndex = 0 ∧
    (step sampleFlags (run sampleFlags (init Buffer.zero 0) (asciiWords "2!")).state
      (35 ||| sampleFlags.UART_FRAME_ERROR)).state.cpuUsage = 2 ∧
    pulseCount (step sampleFlags (run sampleFlags (init Buffer.zero 0) (asciiWords "2!")).state
      (35 ||| sampleFlags.UART_FRAME_ERROR)).events = 0 ∧
    (step sampleFlags (run sampleFlags (init Buffer.zero 0) (asciiWords "2!")).state
      (35 ||| sampleFlags.UART_FRAME_ERROR)).state.bufferIndex = 1 ∧
    (step sampleFlags (run sampleFlags (init Buffer.zero 0) (asciiWords "2!")).state
      (35 ||| sampleFlags.UART_FRAME_ERROR)).state.buffer.c0 = 35 ∧
    serialOut (step sampleFlags (run sampleFlags (init Buffer.zero 0) (asciiWords "5")).state
      33).events = "5!".toList ∧
    (step sampleFlags (run sampleFlags (init Buffer.zero 0) (asciiWords "5")).state
      33).state.cpuUsage = 5 ∧
    serialOut (step sampleFlags (run sampleFlags (init Buffer.zero 0) (asciiWords "5")).state
      (33 ||| sampleFlags.UART_FRAME_ERROR)).events = "UART Frame Error: ".toList ∧
    (step sampleFlags (run sampleFlags (init Buffer.zero 0) (asciiWords "5")).state
      (33 ||| sampleFlags.UART_FRAME_ERROR)).state.cpuUsage = 0 ∧
    (step sampleFlags (run sampleFlags (init Buffer.zero 0) (asciiWords "5")).state
      (33 ||| sampleFlags.UART_FRAME_ERROR)).state.bufferIndex = 2 := by
  decide

/-- Claim C11. No data means no change.  In every state, a poll result with the
`UART_NO_DATA` flag set leaves all variables and the stepper port unchanged (the state
after the iteration is the state before it), produces no event at all, so nothing is
written to the serial link and no motor signal is issued, and does not fault. -/
theorem no_data_no_change (fl : UartFlags) (s : State) (w : Nat)
    (hnd : w &&& fl.UART_NO_DATA ≠ 0) :
    (step fl s w).state = s ∧ (step fl s w).events = [] ∧ (step fl s w).fault = none ∧
    serialOut (step fl s w).events = [] ∧ motorTrace (step fl s w).events = [] := by
  have h : step fl s w = ⟨[], s, none⟩ := by simp [step, hnd]
  rw [h]
  exact ⟨rfl, rfl, rfl, rfl, rfl⟩

/-- Claim C11 at a concrete input: the word `0x0100` in the initial state. -/
theorem no_data_no_change_witness :
    (256 &&& sampleFlags.UART_NO_DATA ≠ 0) ∧
    (step sampleFlags (init Buffer.zero 0) 256).state = init Buffer.zero 0 ∧
    (step sampleFlags (init Buffer.zero 0) 256).events = [] :=
  have h := no_data_no_change sampleFlags (init Buffer.zero 0) 256 (by decide)
  ⟨by decide, h.1, h.2.1⟩

/-- Claim C12. Reset leaves the accumulated input untouched.  In every state the reset
character `35` leaves the content of `buffer` and `bufferIndex` unchanged, so characters
received before the reset still belong to the next frame: from the initial state the
stream `'5'`, `'#'`, `'0'`, `'!'` runs without a fault, parses the frame as 50 and emits
"50!". -/
theorem reset_keeps_buffer (fl : UartFlags) (hfl : fl.HighByte) (s : State) (junk : Buffer)
    (portd : Nat) :
    (step fl s RESET_STEPPER_CHAR).state.buffer = s.buffer ∧
    (step fl s RESET_STEPPER_CHAR).state.bufferIndex = s.bufferIndex ∧
    asciiWords "5#0!" = [53, RESET_STEPPER_CHAR, 48, READ_TO_CHAR] ∧
    (run fl (init junk portd) (asciiWords "5#0!")).fault = none ∧
    (run fl (init junk portd) (asciiWords "5#0!")).state.cpuUsage = 50 ∧
    serialOut (run fl (init junk portd) (asciiWords "5#0!")).events = "50!".toList := by
  have hw : asciiWords "5#0!" = [53, RESET_STEPPER_CHAR, 48, 33] := by decide
  rw [hw]
  exact ⟨(step_reset_buffer fl s).1, (step_reset_buffer fl s).2, rfl,
    run_reset_inside_frame fl hfl junk portd⟩

/-- Claim C12 at the sample status masks. -/
theorem reset_keeps_buffer_witness :
    sampleFlags.HighByte ∧
    serialOut (run sampleFlags (init Buffer.zero 0) (asciiWords "5#0!")).events = "50!".toList :=
  ⟨by decide, (reset_keeps_buffer sampleFlags (by decide) (init Buffer.zero 0) Buffer.zero
    0).2.2.2.2.2⟩

/-- Counterexample to C13 as stated: the frame "101!" leaves the Reading 101, above 100,
and the frame "-1!" leaves the Reading -1, below 0; both states are reached from the
initial state without a fault. -/
theorem reading_outside_percent :
    Reachable sampleFlags (run sampleFlags (init Buffer.zero 0) (asciiWords "101!")).state ∧
    (run sampleFlags (init Buffer.zero 0) (asciiWords "101!")).state.cpuUsage = 101 ∧
    ¬ ((run sampleFlags (init Buffer.zero 0) (asciiWords "101!")).state.cpuUsage ≤ 100) ∧
    Reachable sampleFlags (run sampleFlags (init Buffer.zero 0) (asciiWords "-1!")).state ∧
    (run sampleFlags (init Buffer.zero 0) (asciiWords "-1!")).state.cpuUsage = -1 ∧
    ¬ (0 ≤ (run sampleFlags (init Buffer.zero 0) (asciiWords "-1!")).state.cpuUsage) :=
  ⟨reachable_run _ (Reachable.init _ _) (by decide), by decide, by decide,
   reachable_run _ (Reachable.init _ _) (by decide), by decide, by decide⟩

/-- Claim C13, amended.  In every state reached from the initial state by any stream of
received words without a fault, Reading (`cpuUsage`) is an integer in `[-99, 999]`; and it
is in `[0, 100]` after every stream of reset characters and digit frames whose values are
in `[0, 100]`. -/
theorem reading_range (fl : UartFlags) (hfl : fl.HighByte) :
    (∀ s, Reachable fl s → -99 ≤ s.cpuUsage ∧ s.cpuUsage ≤ 999) ∧
    (∀ (junk : Buffer) (portd : Nat) (items : List Item), (∀ it ∈ items, it.Percent) →
      (run fl (init junk portd) (streamWords items)).fault = none ∧
      0 ≤ (run fl (init junk portd) (streamWords items)).state.cpuUsage ∧
      (run fl (init junk portd) (streamWords items)).state.cpuUsage ≤ 100) := by
  refine ⟨fun s hs => reachable_cpuUsage hs, fun junk portd items hv => ?_⟩
  have h := run_stream_percent fl hfl items hv (init junk portd) rfl (by simp [init])
  exact ⟨h.1, h.2.2.1, h.2.2.2⟩

/-- Claim C13, amended, at the concrete stream "-99!". -/
theorem reading_range_witness :
    sampleFlags.HighByte ∧
    Reachable sampleFlags (run sampleFlags (init Buffer.zero 0) (asciiWords "-99!")).state ∧
    (-99 ≤ (run sampleFlags (init Buffer.zero 0) (asciiWords "-99!")).state.cpuUsage ∧
      (run sampleFlags (init Buffer.zero 0) (asciiWords "-99!")).state.cpuUsage ≤ 999) :=
  ⟨by decide, reachable_run _ (Reachable.init _ _) (by decide),
   (reading_range sampleFlags (by decide)).1 _
     (reachable_run _ (Reachable.init _ _) (by decide))⟩

/-- Claim C14. Function `setClockWise` is idempotent on the port state.  For every value
`p` of the 8-bit port register, applying `setClockWise` twice yields the same port value
as applying it once, the direction bit (pin 5) is set in the result, and every other bit
of `p` is unchanged. -/
theorem setClockWise_idempotent (p : Nat) (hp : p < 256) :
    (setClockWise (setClockWise p).1).1 = (setClockWise p).1 ∧
    (setClockWise p).1.testBit CWCWW_PIN = true ∧
    ∀ i, i ≠ CWCWW_PIN → (setClockWise p).1.testBit i = p.testBit i := by
  have hbit : ∀ q i, q < 256 → i ≠ CWCWW_PIN →
      (SET_HIGH CWCWW_PIN q).testBit i = q.testBit i := by
    intro q i hq hi
    by_cases h8 : i < 8
    · exact testBit_SET_HIGH_ne _ _ _ h8 hi
    · rw [testBit_byte_high (SET_HIGH_lt _ _) (by omega), testBit_byte_high hq (by omega)]
  refine ⟨?_, testBit_SET_HIGH_self _ p (by decide), fun i hi => hbit p i hp hi⟩
  simp only [setClockWise]
  apply Nat.eq_of_testBit_eq
  intro i
  by_cases hi : i = CWCWW_PIN
  · rw [hi, testBit_SET_HIGH_self _ _ (by decide), testBit_SET_HIGH_self _ _ (by decide)]
  · exact hbit _ i (SET_HIGH_lt _ _) hi

/-- Claim C14 at the concrete port value 24. -/
theorem setClockWise_idempotent_witness :
    (24 < 256) ∧ (setClockWise (setClockWise 24).1).1 = (setClockWise 24).1 ∧
    (setClockWise 24).1.testBit CWCWW_PIN = true :=
  have h := setClockWise_idempotent 24 (by decide)
  ⟨by decide, h.1, h.2.1⟩

/-- Claim C15. Direction follows the sign of the delta.  When the terminator completes a
frame in a state of the main loop (the iteration does not fault), StepDelta is
`Reading - PreviousReading`, and the events of the iteration are, in this order: the stores
of the terminator and the NUL, the delta string, `'!'`, then the motor events, then the
`memset`.  The motor events are: for a positive delta the direction signal set high and
then exactly `StepDelta * 4` pulse cycles, for a negative delta the direction signal set
low and then exactly `|StepDelta| * 4` pulse cycles; so the direction is set after the
reply has been written and before the first pulse, and it is still so after the pulses. -/
theorem direction_follows_sign (fl : UartFlags) (hfl : fl.HighByte) (s : State)
    (hs : Reachable fl s) (hok : (step fl s READ_TO_CHAR).fault = none) :
    (step fl s READ_TO_CHAR).state.steps =
      (step fl s READ_TO_CHAR).state.cpuUsage - (step fl s READ_TO_CHAR).state.oldCpuUsage ∧
    (step fl s READ_TO_CHAR).state.oldCpuUsage = s.cpuUsage ∧
    (step fl s READ_TO_CHAR).events =
      [Event.store s.bufferIndex 33, Event.store s.bufferIndex 0] ++
        uartPuts (itoa (step fl s READ_TO_CHAR).state.steps) ++ [Event.tx '!'] ++
        expectedMotion (step fl s READ_TO_CHAR).state.steps ++ memsetEvents ∧
    pulseCount (step fl s READ_TO_CHAR).events =
      4 * (step fl s READ_TO_CHAR).state.steps.natAbs ∧
    (0 < (step fl s READ_TO_CHAR).state.steps →
      dirBit (step fl s READ_TO_CHAR).state.port = true) ∧
    ((step fl s READ_TO_CHAR).state.steps < 0 →
      dirBit (step fl s READ_TO_CHAR).state.port = false) := by
  obtain ⟨v, v1, v2, r1, r2, h⟩ := step_terminator_reachable fl hfl s hs hok
  rw [h]
  have hm := moveMotor_events (n := v - s.cpuUsage) (by omega) s.port
  rw [hm]
  refine ⟨rfl, rfl, rfl, ?_, (dirBit_moveMotor _ _).1, (dirBit_moveMotor _ _).2⟩
  simp [pulseCount_append, pulseCount_uartPuts, pulseCount_expectedMotion, pulseCount,
    memsetEvents]

/-- Claim C15 at a concrete input: the terminator of the frame "5!" after "75!", a
negative delta. -/
theorem direction_follows_sign_witness :
    sampleFlags.HighByte ∧
    (step sampleFlags (run sampleFlags (init Buffer.zero 0) (asciiWords "75!5")).state
      READ_TO_CHAR).events =
      [Event.store (run sampleFlags (init Buffer.zero 0) (asciiWords "75!5")).state.bufferIndex 33,
       Event.store (run sampleFlags (init Buffer.zero 0) (asciiWords "75!5")).state.bufferIndex 0]
        ++ uartPuts (itoa (step sampleFlags (run sampleFlags (init Buffer.zero 0)
            (asciiWords "75!5")).state READ_TO_CHAR).state.steps) ++ [Event.tx '!'] ++
        expectedMotion (step sampleFlags (run sampleFlags (init Buffer.zero 0)
            (asciiWords "75!5")).state READ_TO_CHAR).state.steps ++ memsetEvents :=
  ⟨by decide,
   (direction_follows_sign sampleFlags (by decide) _
     (reachable_run _ (Reachable.init _ _) (by decide)) (by decide)).2.2.1⟩

/-- Counterexample to C16 as stated: the first pulse cycle of `doSteps(1)` asserts the
clock before it deasserts enable, so its six events are not the sequence of the claim. -/
theorem pulse_order_differs :
    (doSteps 1 24).2.take 6 =
      [Event.high ENABLE_PIN, Event.low CLOCK_PIN, Event.delay 1,
       Event.high CLOCK_PIN, Event.low ENABLE_PIN, Event.delay 1] ∧
    (doSteps 1 24).2.take 6 ≠
      [Event.high ENABLE_PIN, Event.low CLOCK_PIN, Event.delay 1,
       Event.low ENABLE_PIN, Event.high CLOCK_PIN, Event.delay 1] := by
  decide

/-- Claim C16, amended.  For every `n`, the signal trace of `doSteps(n)` consists of pulse
cycles each of which is exactly the event sequence: assert enable, deassert clock, wait
1 ms, assert clock, deassert enable, wait 1 ms, in that order; for `n != 0` with
`|n| <= 8191` there are `4 * |n|` of them, at least one. -/
theorem pulse_cycle_order (n : Int) (port : Nat) :
    (doSteps n port).2 =
      (List.replicate (wrap16 (abs16 n * STEP_FACTOR)).toNat
        [Event.high ENABLE_PIN, Event.low CLOCK_PIN, Event.delay 1,
         Event.high CLOCK_PIN, Event.low ENABLE_PIN, Event.delay 1]).flatten ∧
    (n ≠ 0 → n.natAbs ≤ 8191 →
      (wrap16 (abs16 n * STEP_FACTOR)).toNat = 4 * n.natAbs ∧ 0 < 4 * n.natAbs) := by
  constructor
  · simp only [doSteps, doStepsLoop_events]
    rfl
  · intro h0 h
    have ha : abs16 n = (n.natAbs : Int) := by
      unfold abs16
      split <;> (rw [wrap16_id] <;> omega)
    rw [ha, STEP_FACTOR, wrap16_id] <;> omega

/-- Claim C16, amended, at the concrete input `-2`. -/
theorem pulse_cycle_order_witness :
    ((-2 : Int) ≠ 0 ∧ (-2 : Int).natAbs ≤ 8191) ∧
    (wrap16 (abs16 (-2) * STEP_FACTOR)).toNat = 4 * (-2 : Int).natAbs ∧
    (doSteps (-2) 24).2 =
      (List.replicate (wrap16 (abs16 (-2) * STEP_FACTOR)).toNat
        [Event.high ENABLE_PIN, Event.low CLOCK_PIN, Event.delay 1,
         Event.high CLOCK_PIN, Event.low ENABLE_PIN, Event.delay 1]).flatten :=
  ⟨⟨by decide, by decide⟩,
   ((pulse_cycle_order (-2) 24).2 (by decide) (by decide)).1,
   (pulse_cycle_order (-2) 24).1⟩

/-- Claim C17. Line levels between commands.  After the start-up code, at the start of
every iteration of the main loop (after any stream of received words) the half/full-step
bit (pin 3) and the clock bit (pin 4) of the stepper port are both high; and none of
`doSteps`, `setClockWise`, `setCounterClockWise` changes a bit of the 8-bit port other than
bits 2 (enable), 4 (clock) and 5 (direction). -/
theorem line_levels (fl : UartFlags) (junk : Buffer) (portd : Nat) (ws : List Nat) :
    ((run fl (init junk portd) ws).state.port.testBit HALFFULL_PIN = true ∧
      (run fl (init junk portd) ws).state.port.testBit CLOCK_PIN = true) ∧
    ∀ (p : Nat) (n : Int) (i : Nat), i < 8 → i ≠ ENABLE_PIN → i ≠ CLOCK_PIN → i ≠ CWCWW_PIN →
      (doSteps n p).1.testBit i = p.testBit i ∧
      (setClockWise p).1.testBit i = p.testBit i ∧
      (setCounterClockWise p).1.testBit i = p.testBit i := by
  refine ⟨run_preserves fl (fun s => LinesHigh s.port) (linesHigh_step fl) ws _
    (linesHigh_startup portd), fun p n i hi h2 h4 h5 => ⟨?_, ?_, ?_⟩⟩
  · exact testBit_doStepsLoop _ _ _ hi h2 h4
  · exact testBit_SET_HIGH_ne _ _ _ hi h5
  · exact testBit_SET_LOW_ne _ _ _ hi h5

/-- Claim C17 at a concrete stream and a concrete port bit. -/
theorem line_levels_witness :
    (run sampleFlags (init Buffer.zero 0) (asciiWords "75!#")).state.port.testBit CLOCK_PIN
      = true ∧
    (doSteps 3 255).1.testBit 7 = (255 : Nat).testBit 7 :=
  ⟨(line_levels sampleFlags Buffer.zero 0 (asciiWords "75!#")).1.2,
   ((line_levels sampleFlags Buffer.zero 0 []).2 255 3 7 (by decide) (by decide) (by decide)
     (by decide)).1⟩

/-- Claim C18. The reply fits its buffer for digit frames.  For every input stream of
digit frames (1 to 3 ASCII digits and the terminator) and reset characters, started from
the initial state, the run has no fault (in particular `itoa` never writes past `output`),
and the computed delta lies in `[-999, 999]`, so its base-10 representation has at most 4
characters and, with the terminating NUL, fits the 5-byte array `output`.  Every prefix of
such a stream is such a stream, so this holds for every delta computed on the way. -/
theorem reply_fits_output (fl : UartFlags) (hfl : fl.HighByte) (junk : Buffer) (portd : Nat)
    (items : List Item) (hv : ∀ it ∈ items, it.Valid) :
    (run fl (init junk portd) (streamWords items)).fault = none ∧
    -999 ≤ (run fl (init junk portd) (streamWords items)).state.steps ∧
    (run fl (init junk portd) (streamWords items)).state.steps ≤ 999 ∧
    (itoa (run fl (init junk portd) (streamWords items)).state.steps).length ≤ 4 ∧
    (itoa (run fl (init junk portd) (streamWords items)).state.steps).length + 1 ≤
      outputSize := by
  obtain ⟨f, l, u⟩ := run_stream_steps fl hfl items hv (init junk portd) rfl
    (by simp [init]) (by simp [init])
  have hlen := itoa_length_le (n := (run fl (init junk portd) (streamWords items)).state.steps)
    l (by omega)
  refine ⟨f, l, u, hlen, ?_⟩
  simp only [outputSize]
  omega

/-- Claim C18 at the concrete stream "999!", "0!", whose second delta is -999. -/
theorem reply_fits_output_witness :
    sampleFlags.HighByte ∧
    (∀ it ∈ [Item.frame [9, 9, 9], Item.frame [0]], it.Valid) ∧
    (run sampleFlags (init Buffer.zero 0)
      (streamWords [Item.frame [9, 9, 9], Item.frame [0]])).fault = none ∧
    -999 ≤ (run sampleFlags (init Buffer.zero 0)
      (streamWords [Item.frame [9, 9, 9], Item.frame [0]])).state.steps :=
  have hv : ∀ it ∈ [Item.frame [9, 9, 9], Item.frame [0]], it.Valid := by decide
  have h := reply_fits_output sampleFlags (by decide) Buffer.zero 0 _ hv
  ⟨by decide, hv, h.1, h.2.1⟩

/-- Claim C19. No 16-bit overflow in the step arithmetic.  In the state `s` reached from
the initial state by any stream of received words (the run is followed up to its first
fault, so no store outside `buffer` has happened), and for any next word: Reading lies in
`[-99, 999]`; the last delta lies in `[-1098, 1098]`; the next delta, the new Reading
minus the Reading of `s`, lies in `[-1098, 1098]` and its 16-bit value is the exact one;
and for the arguments of the calls of `doSteps`, Reading in the reset branch and the delta
after a frame, the product `abs(s) * 4` is at most 4392 and its 16-bit value is the exact
one. -/
theorem no_int16_overflow (fl : UartFlags) (junk : Buffer) (portd : Nat) (ws : List Nat)
    (w : Nat) :
    (-99 ≤ (run fl (init junk portd) ws).state.cpuUsage ∧
      (run fl (init junk portd) ws).state.cpuUsage ≤ 999) ∧
    (-1098 ≤ (run fl (init junk portd) ws).state.steps ∧
      (run fl (init junk portd) ws).state.steps ≤ 1098) ∧
    (-1098 ≤ (step fl (run fl (init junk portd) ws).state w).state.cpuUsage -
        (run fl (init junk portd) ws).state.cpuUsage ∧
      (step fl (run fl (init junk portd) ws).state w).state.cpuUsage -
        (run fl (init junk portd) ws).state.cpuUsage ≤ 1098 ∧
      wrap16 ((step fl (run fl (init junk portd) ws).state w).state.cpuUsage -
        (run fl (init junk portd) ws).state.cpuUsage) =
      (step fl (run fl (init junk portd) ws).state w).state.cpuUsage -
        (run fl (init junk portd) ws).state.cpuUsage) ∧
    ((run fl (init junk portd) ws).state.cpuUsage.natAbs * 4 ≤ 4392 ∧
      wrap16 (abs16 (run fl (init junk portd) ws).state.cpuUsage * STEP_FACTOR) =
        (((run fl (init junk portd) ws).state.cpuUsage.natAbs * 4 : Nat) : Int)) ∧
    ((run fl (init junk portd) ws).state.steps.natAbs * 4 ≤ 4392 ∧
      wrap16 (abs16 (run fl (init junk portd) ws).state.steps * STEP_FACTOR) =
        (((run fl (init junk portd) ws).state.steps.natAbs * 4 : Nat) : Int)) := by
  have h := run_preserves fl SmallInts (smallInts_step fl) ws _ (smallInts_init junk portd)
  have h2 := smallInts_step fl _ w h
  obtain ⟨⟨c1, c2⟩, _, ⟨s1, s2⟩⟩ := h
  obtain ⟨⟨d1, d2⟩, _, _⟩ := h2
  have e1 := stepNumber_exact (x := (run fl (init junk portd) ws).state.cpuUsage)
    (by omega) (by omega)
  have e2 := stepNumber_exact s1 s2
  refine ⟨⟨c1, c2⟩, ⟨s1, s2⟩, ⟨by omega, by omega, ?_⟩, ⟨e1.2, e1.1⟩, ⟨e2.2, e2.1⟩⟩
  rw [wrap16_id] <;> omega

/-- Claim C20. A reset happens only for an unflagged `'#'`.  The reset branch is taken if
and only if the received word equals exactly 35, that is the data byte (low byte) is `'#'`
and the status byte (high byte) is 0.  Consequently no warning text is written in the
reset branch: its events are the direction change and the pulses only.  A `'#'` byte that
arrives with any of the three error flags set takes the accumulate branch instead: after
the warnings it is stored at `buffer[bufferIndex]` and `bufferIndex` is incremented, with
no reset performed (Reading and the port are unchanged, no motor signal). -/
theorem reset_only_unflagged (fl : UartFlags) (hfl : fl.HighByte) (s : State) (w : Nat) :
    (branch fl w = Branch.reset ↔ w = RESET_STEPPER_CHAR) ∧
    (w = RESET_STEPPER_CHAR ↔ w % 256 = 35 ∧ w / 256 = 0) ∧
    (branch fl w = Branch.reset →
      step fl s w =
        ⟨(setCounterClockWise s.port).2 ++
            (doSteps s.cpuUsage (setCounterClockWise s.port).1).2,
          { s with port := (doSteps s.cpuUsage (setCounterClockWise s.port).1).1,
                   cpuUsage := 0 }, none⟩ ∧
      warnings fl w = [] ∧ serialOut (step fl s w).events = []) ∧
    (w % 256 = 35 → w &&& fl.UART_NO_DATA = 0 →
      (w &&& fl.UART_FRAME_ERROR ≠ 0 ∨ w &&& fl.UART_OVERRUN_ERROR ≠ 0 ∨
        w &&& fl.UART_BUFFER_OVERFLOW ≠ 0) →
      branch fl w = Branch.accumulate ∧
      (step fl s w).events = warnings fl w ++ [Event.store s.bufferIndex 35] ∧
      (step fl s w).state.bufferIndex = wrap16 (s.bufferIndex + 1) ∧
      (step fl s w).state.cpuUsage = s.cpuUsage ∧
      (step fl s w).state.port = s.port ∧
      motorTrace (step fl s w).events = [] ∧
      (inBounds s.bufferIndex = true →
        (step fl s w).fault = none ∧
        (step fl s w).state.buffer = s.buffer.set s.bufferIndex.toNat 35)) := by
  have hnd35 : RESET_STEPPER_CHAR &&& fl.UART_NO_DATA = 0 := noData_byte hfl (by decide)
  have hbr : branch fl w = Branch.reset ↔ w = RESET_STEPPER_CHAR := by
    unfold branch
    constructor
    · intro h
      by_cases h1 : w &&& fl.UART_NO_DATA ≠ 0
      · simp [h1] at h
      · by_cases h2 : w = RESET_STEPPER_CHAR
        · exact h2
        · simp [h1, h2] at h
    · intro h
      subst h
      simp [hnd35]
  refine ⟨hbr, word_eq_reset_iff w, fun h => ?_, fun hb hnd hflag => ?_⟩
  · have hw := hbr.1 h
    have hwarn : warnings fl w = [] := by rw [hw]; exact warnings_byte hfl (by decide)
    have hst := (step_branch fl s w).2.1 h
    rw [hwarn] at hst
    rw [hst]
    refine ⟨by simp, hwarn, ?_⟩
    simp [serialOut_append, serialOut_doSteps, setCounterClockWise, serialOut]
  · have h35 : w ≠ RESET_STEPPER_CHAR := by
      rcases hflag with h | h | h
      · exact flagged_ne_byte hfl.2.1 h (by decide)
      · exact flagged_ne_byte hfl.2.2.1 h (by decide)
      · exact flagged_ne_byte hfl.2.2.2 h (by decide)
    have h33 : w ≠ READ_TO_CHAR := by
      intro h
      rw [h] at hb
      simp [READ_TO_CHAR] at hb
    obtain ⟨e, i, c, _, p, f⟩ := step_accumulate fl s w hnd h35 h33
    rw [hb] at e f
    refine ⟨by simp [branch, hnd, h35], e, i, c, p, ?_, f⟩
    rw [e, motorTrace_append, warnings_eq, motorTrace_uartPuts]
    rfl

/-- Claim C20 at a concrete input: the word `0x0823`, `'#'` with the frame-error flag. -/
theorem reset_only_unflagged_witness :
    sampleFlags.HighByte ∧ (2083 % 256 = 35 ∧ 2083 &&& sampleFlags.UART_NO_DATA = 0 ∧
      2083 &&& sampleFlags.UART_FRAME_ERROR ≠ 0) ∧
    branch sampleFlags 2083 = Branch.accumulate ∧
    (step sampleFlags (init Buffer.zero 0) 2083).state.bufferIndex =
      wrap16 ((init Buffer.zero 0).bufferIndex + 1) :=
  have h := (reset_only_unflagged sampleFlags (by decide) (init Buffer.zero 0) 2083).2.2.2
    (by decide) (by decide) (Or.inl (by decide))
  ⟨by decide, ⟨by decide, by decide, by decide⟩, h.1, h.2.2.1⟩

end CpuMonitor
